import Mathlib

/-!
Verification of the document-transform core of `src/confluence_api.py`.

The Python methods in the source fetch a page over HTTP, transform the
page's storage-format text, and write it back.  Everything the claims are
about lives in the pure transform part (`text → text`, or
`text → result-or-error`), so this development embeds exactly those
transforms: a document is a `List Char`, a fallible editor operation
returns `Except EditError (List Char)`, and the HTTP fetch/write glue is
out of scope (as in the specification, which treats the store as an
external collaborator).

Python regular-expression scanning is embedded by direct scanners that
reproduce the leftmost-match / retry-on-failure semantics of the specific
patterns the source uses.  Recursion that is not structural on a list is
driven by an explicit fuel argument so that every definition evaluates
inside the kernel; wrappers supply `length + 1` fuel, which is always
sufficient because each match consumes at least one character.
-/

namespace Conf

/-- Character constants written via code points (backtick and apostrophe). -/
def btick : Char := Char.ofNat 96

def apos : Char := Char.ofNat 39

/-- String literal to character list. -/
def toL (s : String) : List Char := s.data

/-- Python `\s` / `str.strip` whitespace, restricted to the ASCII range
(the documents handled by the source are ASCII-structured markup). -/
def isSpaceCh (c : Char) : Bool :=
  c = ' ' || c = '\t' || c = '\n' || c = '\r' || c = Char.ofNat 11 || c = Char.ofNat 12

def isDigitCh (c : Char) : Bool :=
  '0' ≤ c && c ≤ '9'

/-- ASCII lowering, as used by `str.lower()` on the markup the source scans. -/
def lowerCh (c : Char) : Char :=
  if 'A' ≤ c && c ≤ 'Z' then Char.ofNat (c.toNat + 32) else c

def lowerL (s : List Char) : List Char := s.map lowerCh

/-- Python slice `s[a:b]`: the characters of `s` at positions `[a, b)`. -/
def extract (s : List Char) (a b : Nat) : List Char := (s.take b).drop a

/-- First index at which `pat` occurs in `s` (Python `str.find`, as a scan). -/
def firstIdx (pat : List Char) : List Char → Option Nat
  | [] => if pat = [] then some 0 else none
  | c :: cs =>
    if pat.isPrefixOf (c :: cs) then some 0
    else (firstIdx pat cs).map (· + 1)

/-- Python `pat in s` substring test. -/
def occursIn (pat : List Char) : List Char → Bool
  | [] => pat.isPrefixOf []
  | c :: cs => pat.isPrefixOf (c :: cs) || occursIn pat cs

/-- Python `s.replace(pat, rep, 1)`: replace the first occurrence only. -/
def replaceFirst : List Char → List Char → List Char → List Char
  | [], pat, rep => if pat.isPrefixOf [] then rep else []
  | c :: cs, pat, rep =>
    if pat.isPrefixOf (c :: cs) then rep ++ (c :: cs).drop pat.length
    else c :: replaceFirst cs pat rep

/-- Python `s.replace(pat, rep)` for a non-empty `pat` (every use in the
source passes a non-empty literal), fuelled for kernel evaluation. -/
def replaceAllF : Nat → List Char → List Char → List Char → List Char
  | 0, s, _, _ => s
  | _ + 1, [], _, _ => []
  | fuel + 1, c :: cs, pat, rep =>
    if pat ≠ [] && pat.isPrefixOf (c :: cs) then
      rep ++ replaceAllF fuel ((c :: cs).drop pat.length) pat rep
    else c :: replaceAllF fuel cs pat rep

def replaceAll (s pat rep : List Char) : List Char :=
  replaceAllF (s.length + 1) s pat rep

/-- Python `s.split(sep)` for a one-character separator. -/
def splitOnChar (sep : Char) : List Char → List (List Char)
  | [] => [[]]
  | c :: cs =>
    if c = sep then [] :: splitOnChar sep cs
    else
      match splitOnChar sep cs with
      | h :: t => (c :: h) :: t
      | [] => [[c]]

/-- Python `sep.join(parts)` for a one-character separator. -/
def joinWith (sep : Char) : List (List Char) → List Char
  | [] => []
  | [l] => l
  | l :: ls => l ++ sep :: joinWith sep ls

/-- Drop trailing characters satisfying `p` (right half of `str.strip`). -/
def dropTrailing (p : Char → Bool) (l : List Char) : List Char :=
  (l.reverse.dropWhile p).reverse

/-- Python `str.strip()`. -/
def stripB (l : List Char) : List Char :=
  dropTrailing isSpaceCh (l.dropWhile isSpaceCh)

/-- Digits of a natural number, as Python `str(n)` renders it. -/
def natDigits (n : Nat) : List Char := (Nat.repr n).data

/-- Python `int(ds)` on a string of decimal digits. -/
def parseNatDigits (ds : List Char) : Nat :=
  ds.foldl (fun a c => a * 10 + (c.toNat - 48)) 0

/-- One character of Python `html.escape(s)` (quote=True, the default). -/
def escChar (c : Char) : List Char :=
  if c = '&' then toL ("&amp;")
  else if c = '<' then toL ("&lt;")
  else if c = '>' then toL ("&gt;")
  else if c = '\"' then toL ("&quot;")
  else if c = apos then toL ("&#x27;")
  else [c]

def htmlEscape (s : List Char) : List Char := (s.map escChar).flatten

/-! ### Inline format scanners (`_process_inline_formats`, source lines 1408-1429)

Each regex substitution of the source is embedded as a left-to-right scan
that, at every position, attempts the pattern and on failure advances one
character — exactly `re.sub`'s leftmost, non-overlapping semantics for
these patterns (none of them can backtrack into a different-shaped match,
as analysed per pattern below). -/

/-- Attempt `!\[([^\]]*)\]\(([^)]+)\)` against `r`, where `r` is the text
following a leading `![`.  `[^\]]*` is greedy but is followed by the
literal `]`, so it always captures exactly up to the first `]`; similarly
`[^)]+` captures up to the first `)` and must be non-empty. -/
def imgTryMatch (r : List Char) : Option (List Char × List Char × List Char) :=
  let alt := r.takeWhile (· != ']')
  match r.drop alt.length with
  | ']' :: '(' :: r3 =>
    let tgt := r3.takeWhile (· != ')')
    if tgt.isEmpty then none
    else
      match r3.drop tgt.length with
      | ')' :: r4 => some (alt, tgt, r4)
      | _ => none
  | _ => none

/-- Image rule `![alt](target)` → `<ac:image><ri:url ri:value="target"/></ac:image>`. -/
def imgScanF : Nat → List Char → List Char
  | 0, s => s
  | fuel + 1, s =>
    match s with
    | [] => []
    | '!' :: '[' :: rest =>
      match imgTryMatch rest with
      | some (_alt, tgt, r4) =>
        toL ("<ac:image><ri:url ri:value=\"") ++ tgt ++ toL ("\"/></ac:image>") ++
          imgScanF fuel r4
      | none => '!' :: imgScanF fuel ('[' :: rest)
    | c :: cs => c :: imgScanF fuel cs

/-- Attempt `\[([^\]]+)\]\(([^)]+)\)` against the text following a leading
`[` (non-empty link text, unlike the image alt). -/
def linkTryMatch (r : List Char) : Option (List Char × List Char × List Char) :=
  let txt := r.takeWhile (· != ']')
  if txt.isEmpty then none
  else
    match r.drop txt.length with
    | ']' :: '(' :: r3 =>
      let url := r3.takeWhile (· != ')')
      if url.isEmpty then none
      else
        match r3.drop url.length with
        | ')' :: r4 => some (txt, url, r4)
        | _ => none
    | _ => none

/-- Link rule `[text](url)` → `<a href="url">text</a>`. -/
def linkScanF : Nat → List Char → List Char
  | 0, s => s
  | fuel + 1, s =>
    match s with
    | [] => []
    | '[' :: rest =>
      match linkTryMatch rest with
      | some (txt, url, r4) =>
        toL ("<a href=\"") ++ url ++ toL ("\">") ++ txt ++ toL ("</a>") ++
          linkScanF fuel r4
      | none => '[' :: linkScanF fuel rest
    | c :: cs => c :: linkScanF fuel cs

/-- Close of a lazy `(.+?)` body terminated by the delimiter pair `dd`:
the shortest non-empty newline-free prefix of the input followed by `dd`
(`.` does not match a newline; the source compiles these patterns without
`re.DOTALL`). -/
def lazyClose2 (d : Char) : List Char → Option (List Char × List Char)
  | [] => none
  | c :: rest =>
    if c = '\n' then none
    else
      match rest with
      | r1 :: r2 :: rr =>
        if r1 = d && r2 = d then some ([c], rr)
        else (lazyClose2 d rest).map (fun p => (c :: p.1, p.2))
      | _ => none

/-- Bold rule `dd(.+?)dd` → `pre ++ body ++ post`; used for `**bold**` (and, in the
cell-content processor, `__bold__`). -/
def boldScanF (d : Char) (pre post : List Char) : Nat → List Char → List Char
  | 0, s => s
  | fuel + 1, s =>
    match s with
    | [] => []
    | [c] => [c]
    | c1 :: c2 :: rest =>
      if c1 = d && c2 = d then
        match lazyClose2 d rest with
        | some (body, r2) => pre ++ body ++ post ++ boldScanF d pre post fuel r2
        | none => c1 :: boldScanF d pre post fuel (c2 :: rest)
      else c1 :: boldScanF d pre post fuel (c2 :: rest)

/-- Italic rule `(?<!\*)\*([^*]+)\*(?!\*)` → `<em>body</em>`.  The look-behind reads
the original character before the current position, threaded as `prev`. -/
def italicInlineF : Nat → Option Char → List Char → List Char
  | 0, _, s => s
  | fuel + 1, prev, s =>
    match s with
    | [] => []
    | '*' :: rest =>
      if prev = some '*' then '*' :: italicInlineF fuel (some '*') rest
      else
        let body := rest.takeWhile (· != '*')
        if body.isEmpty then '*' :: italicInlineF fuel (some '*') rest
        else
          match rest.drop body.length with
          | _ :: r2 =>
            if r2.head? = some '*' then '*' :: italicInlineF fuel (some '*') rest
            else toL ("<em>") ++ body ++ toL ("</em>") ++ italicInlineF fuel (some '*') r2
          | [] => '*' :: italicInlineF fuel (some '*') rest
    | c :: cs => c :: italicInlineF fuel (some c) cs

/-- Backtick inline code → `<code>body</code>` (body = `[^`]+`, greedy up
to the first closing backtick). -/
def codeScanF : Nat → List Char → List Char
  | 0, s => s
  | fuel + 1, s =>
    match s with
    | [] => []
    | c :: cs =>
      if c = btick then
        let body := cs.takeWhile (· != btick)
        if body.isEmpty then c :: codeScanF fuel cs
        else
          match cs.drop body.length with
          | _ :: r2 => toL ("<code>") ++ body ++ toL ("</code>") ++ codeScanF fuel r2
          | [] => c :: codeScanF fuel cs
      else c :: codeScanF fuel cs

/-- The function `_process_inline_formats`: image, link, bold, italic, inline code, in
the source's order. -/
def process_inline_formats (line : List Char) : List Char :=
  let l1 := imgScanF (line.length + 1) line
  let l2 := linkScanF (l1.length + 1) l1
  let l3 := boldScanF '*' (toL ("<strong>")) (toL ("</strong>")) (l2.length + 1) l2
  let l4 := italicInlineF (l3.length + 1) none l3
  codeScanF (l4.length + 1) l4

/-! ### Cell content processor (`_process_cell_content`, lines 1244-1288) -/

/-- Generic `re.sub` driver: `tryM s` attempts a match at the head of `s`,
returning the replacement text and the remainder after the match; on
failure the scan advances one character.  Every matcher passed to it
consumes at least one character, so `length + 1` fuel always suffices. -/
def subScan (tryM : List Char → Option (List Char × List Char)) :
    Nat → List Char → List Char
  | 0, s => s
  | fuel + 1, s =>
    match s with
    | [] => []
    | c :: cs =>
      match tryM (c :: cs) with
      | some (repl, rest) => repl ++ subScan tryM fuel rest
      | none => c :: subScan tryM fuel cs

/-- Bracket-image rule `\[image:([^\]]+)\]` → attachment image tag with the filename
HTML-escaped. -/
def bracketImageTry (s : List Char) : Option (List Char × List Char) :=
  if (toL ("[image:")).isPrefixOf s then
    let r := s.drop 7
    let fn := r.takeWhile (· != ']')
    if fn.isEmpty then none
    else
      match r.drop fn.length with
      | _ :: r2 =>
        some (toL ("<ac:image><ri:attachment ri:filename=\"") ++ htmlEscape fn ++
          toL ("\"/></ac:image>"), r2)
      | [] => none
  else none

/-- Markdown image in cell content: attachment tag unless the target
starts with `http`, in which case a plain `<img>` tag. -/
def mdImageCellTry (s : List Char) : Option (List Char × List Char) :=
  match s with
  | '!' :: '[' :: rest =>
    match imgTryMatch rest with
    | some (_alt, tgt, r4) =>
      if (toL ("http")).isPrefixOf tgt then
        some (toL ("<img src=\"") ++ htmlEscape tgt ++ toL ("\"/>"), r4)
      else
        some (toL ("<ac:image><ri:attachment ri:filename=\"") ++ htmlEscape tgt ++
          toL ("\"/></ac:image>"), r4)
    | none => none
  | _ => none

/-- Close of the cell-content italic `(?<!\*)\*(?!\*)(.+?)(?<!\*)\*(?!\*)`:
shortest non-empty newline-free body whose following character is a `*`
not preceded (in the body) or followed by another `*`. -/
def cellItalicClose : List Char → Option (List Char × List Char)
  | [] => none
  | c :: rest =>
    if c = '\n' then none
    else if rest.head? = some '*' && c != '*' && (rest.drop 1).head? != some '*' then
      some ([c], rest.drop 1)
    else (cellItalicClose rest).map (fun p => (c :: p.1, p.2))

/-- The cell-content italic substitution (look-arounds on both stars). -/
def cellItalicF : Nat → Option Char → List Char → List Char
  | 0, _, s => s
  | fuel + 1, prev, s =>
    match s with
    | [] => []
    | '*' :: rest =>
      if prev = some '*' || rest.head? = some '*' then '*' :: cellItalicF fuel (some '*') rest
      else
        match cellItalicClose rest with
        | some (body, r2) =>
          toL ("<em>") ++ body ++ toL ("</em>") ++ cellItalicF fuel (some '*') r2
        | none => '*' :: cellItalicF fuel (some '*') rest
    | c :: cs => c :: cellItalicF fuel (some c) cs

/-- The function `_process_cell_content`: bracket image, Markdown image, `**`/`__`
bold, italic; then, unless the stripped result starts with `<`, inline
code and Markdown links as well. -/
def process_cell_content (content : List Char) : List Char :=
  let p1 := subScan bracketImageTry (content.length + 1) content
  let p2 := subScan mdImageCellTry (p1.length + 1) p1
  let p3 := boldScanF '*' (toL ("<strong>")) (toL ("</strong>")) (p2.length + 1) p2
  let p4 := boldScanF '_' (toL ("<strong>")) (toL ("</strong>")) (p3.length + 1) p3
  let p5 := cellItalicF (p4.length + 1) none p4
  if (stripB p5).head? = some '<' then p5
  else
    let p6 := codeScanF (p5.length + 1) p5
    linkScanF (p6.length + 1) p6

/-! ### Markdown → storage compiler (`markdown_to_confluence`, lines 1292-1406)

The source iterates over `markdown_content.split('\n')` mutating six local
variables; here the same loop body is `mdStep` over an explicit state. -/

structure MdState where
  inCode : Bool
  codeLang : List Char
  codeContent : List (List Char)
  inTable : Bool
  inList : Bool
  listType : List Char
  out : List (List Char)

def initMd : MdState := ⟨false, [], [], false, false, [], []⟩

/-- Embeds `re.match(r'^\d+\.\s', stripped)` as a Boolean. -/
def olMatch (s : List Char) : Bool :=
  let ds := s.takeWhile isDigitCh
  !ds.isEmpty &&
    (match s.drop ds.length with
     | '.' :: w :: _ => isSpaceCh w
     | _ => false)

/-- Embeds `re.sub(r'^\d+\.\s', '', line)`: the anchored pattern is removed at
position 0 when it matches there, otherwise the line is unchanged. -/
def olStrip (s : List Char) : List Char :=
  let ds := s.takeWhile isDigitCh
  if ds.isEmpty then s
  else
    match s.drop ds.length with
    | '.' :: w :: rest => if isSpaceCh w then rest else s
    | _ => s

/-- Macro emitted when a code fence closes, keyed on the fence language. -/
def closeFence (lang content : List Char) : List Char :=
  if lang = toL ("mermaid") then
    toL ("<ac:structured-macro ac:name=\"mermaid-macro\"><ac:plain-text-body><![CDATA[") ++
      content ++ toL ("]]></ac:plain-text-body></ac:structured-macro>")
  else if lang = toL ("plantuml") || lang = toL ("uml") || lang = toL ("puml") then
    toL ("<ac:structured-macro ac:name=\"plantuml\"><ac:plain-text-body><![CDATA[") ++
      content ++ toL ("]]></ac:plain-text-body></ac:structured-macro>")
  else
    let lp := if lang.isEmpty then ([] : List Char)
      else toL ("<ac:parameter ac:name=\"language\">") ++ lang ++ toL ("</ac:parameter>")
    toL ("<ac:structured-macro ac:name=\"code\">") ++ lp ++
      toL ("<ac:plain-text-body><![CDATA[") ++ content ++
      toL ("]]></ac:plain-text-body></ac:structured-macro>")

def thCell (c : List Char) : List Char :=
  toL ("<th>") ++ process_inline_formats (htmlEscape c) ++ toL ("</th>")

def tdCell (c : List Char) : List Char :=
  toL ("<td>") ++ process_inline_formats (htmlEscape c) ++ toL ("</td>")

/-- One iteration of the compiler loop (one input line). -/
def mdStep (st : MdState) (line : List Char) : MdState :=
  if (toL ("```")).isPrefixOf (stripB line) then
    if !st.inCode then
      { st with inCode := true, codeLang := lowerL ((stripB line).drop 3), codeContent := [] }
    else
      { st with inCode := false
                codeLang := []
                out := st.out ++ [closeFence st.codeLang (joinWith '\n' st.codeContent)] }
  else if st.inCode then
    { st with codeContent := st.codeContent ++ [line] }
  else
    let stripped := stripB line
    let isUl := (toL ("- ")).isPrefixOf stripped || (toL ("* ")).isPrefixOf stripped
    let isOl := olMatch stripped
    let st :=
      if st.inList && !isUl && !isOl then
        { st with out := st.out ++ [toL ("</") ++ st.listType ++ ['>']]
                  inList := false
                  listType := [] }
      else st
    if stripped.head? = some '|' ∧ stripped.getLast? = some '|' then
      let cells := (splitOnChar '|' ((stripped.drop 1).dropLast)).map stripB
      if cells.all (fun cell => cell.all (fun c => c == '-' || c == ':' || c == ' ')) then
        st
      else if !st.inTable then
        { st with inTable := true
                  out := st.out ++ [toL ("<table><tbody>"),
                    toL ("<tr>") ++ (cells.map thCell).flatten ++ toL ("</tr>")] }
      else
        { st with out := st.out ++
            [toL ("<tr>") ++ (cells.map tdCell).flatten ++ toL ("</tr>")] }
    else
      let st := if st.inTable then
          { st with inTable := false
                    out := st.out ++ [toL ("</tbody></table>")] }
        else st
      let esc := process_inline_formats (htmlEscape line)
      if (stripB esc).isEmpty then st
      else if (toL ("# ")).isPrefixOf esc then
        { st with out := st.out ++ [toL ("<h1>") ++ esc.drop 2 ++ toL ("</h1>")] }
      else if (toL ("## ")).isPrefixOf esc then
        { st with out := st.out ++ [toL ("<h2>") ++ esc.drop 3 ++ toL ("</h2>")] }
      else if (toL ("### ")).isPrefixOf esc then
        { st with out := st.out ++ [toL ("<h3>") ++ esc.drop 4 ++ toL ("</h3>")] }
      else if (toL ("#### ")).isPrefixOf esc then
        { st with out := st.out ++ [toL ("<h4>") ++ esc.drop 5 ++ toL ("</h4>")] }
      else if (toL ("##### ")).isPrefixOf esc then
        { st with out := st.out ++ [toL ("<h5>") ++ esc.drop 6 ++ toL ("</h5>")] }
      else if (toL ("###### ")).isPrefixOf esc then
        { st with out := st.out ++ [toL ("<h6>") ++ esc.drop 7 ++ toL ("</h6>")] }
      else if (toL ("&gt; ")).isPrefixOf esc then
        { st with out := st.out ++
            [toL ("<blockquote><p>") ++ esc.drop 5 ++ toL ("</p></blockquote>")] }
      else if isUl then
        let st :=
          if !st.inList || st.listType ≠ toL ("ul") then
            let st := if st.inList then
                { st with out := st.out ++ [toL ("</") ++ st.listType ++ ['>']] }
              else st
            { st with out := st.out ++ [toL ("<ul>")]
                      inList := true
                      listType := toL ("ul") }
          else st
        { st with out := st.out ++ [toL ("<li>") ++ esc.drop 2 ++ toL ("</li>")] }
      else if isOl then
        let st :=
          if !st.inList || st.listType ≠ toL ("ol") then
            let st := if st.inList then
                { st with out := st.out ++ [toL ("</") ++ st.listType ++ ['>']] }
              else st
            { st with out := st.out ++ [toL ("<ol>")]
                      inList := true
                      listType := toL ("ol") }
          else st
        { st with out := st.out ++ [toL ("<li>") ++ olStrip esc ++ toL ("</li>")] }
      else
        { st with out := st.out ++ [toL ("<p>") ++ esc ++ toL ("</p>")] }

/-- The compiler `markdown_to_confluence`: fold the loop over the split lines, then
close a still-open table and list (an unterminated code fence is simply
dropped, as in the source). -/
def markdown_to_confluence (md : List Char) : List Char :=
  let st := (splitOnChar '\n' md).foldl mdStep initMd
  let st := if st.inTable then { st with out := st.out ++ [toL ("</tbody></table>")] } else st
  let st := if st.inList then
      { st with out := st.out ++ [toL ("</") ++ st.listType ++ ['>']] }
    else st
  joinWith '\n' st.out

/-! ### Tag locator (the `re.finditer` scans of the table editor)

All editor patterns have the shape `OPEN[^>]*>` followed by a lazy
`.*?`/`(.*?)` body and a closing literal, compiled with `re.DOTALL`.
`[^>]*` is greedy but is followed by `>`, so the open tag always ends at
the first `>` after the open literal.  The lazy body ends at the first
occurrence of the closing literal after the open tag.  When a candidate
start has no following `>` or no following closing literal, the regex
engine moves on to the next start position; `findTagFrom` retries from
`i + 1` accordingly. -/

structure TagM where
  ms : Nat
  oe : Nat
  ce : Nat
  me : Nat
  deriving DecidableEq

def minOpt : Option Nat → Option Nat → Option Nat
  | none, b => b
  | some a, none => some a
  | some a, some b => some (min a b)

/-- Next match of `OPEN[^>]*>(.*?)CLOSE` in `s` at or after `pos`. -/
def findTagFrom (openL closeL s : List Char) : Nat → Nat → Option TagM
  | _, 0 => none
  | pos, fuel + 1 =>
    match firstIdx openL (s.drop pos) with
    | none => none
    | some d =>
      let i := pos + d
      match firstIdx ['>'] (s.drop (i + openL.length)) with
      | none => findTagFrom openL closeL s (i + 1) fuel
      | some dj =>
        let oe := i + openL.length + dj + 1
        match firstIdx closeL (s.drop oe) with
        | none => findTagFrom openL closeL s (i + 1) fuel
        | some dk => some ⟨i, oe, oe + dk, oe + dk + closeL.length⟩

/-- Next match of the cell pattern `<t[hd][^>]*>.*?</t[hd]>` (the closing
tag need not equal the opening one in this variant, used by the column
editors). -/
def findCell2From (s : List Char) : Nat → Nat → Option TagM
  | _, 0 => none
  | pos, fuel + 1 =>
    match minOpt (firstIdx (toL ("<th")) (s.drop pos)) (firstIdx (toL ("<td")) (s.drop pos)) with
    | none => none
    | some d =>
      let i := pos + d
      match firstIdx ['>'] (s.drop (i + 3)) with
      | none => findCell2From s (i + 1) fuel
      | some dj =>
        let oe := i + 3 + dj + 1
        match minOpt (firstIdx (toL ("</th>")) (s.drop oe))
            (firstIdx (toL ("</td>")) (s.drop oe)) with
        | none => findCell2From s (i + 1) fuel
        | some dk => some ⟨i, oe, oe + dk, oe + dk + 5⟩

structure CellM where
  ms : Nat
  oe : Nat
  ce : Nat
  me : Nat
  isTh : Bool
  deriving DecidableEq

/-- Next match of `<(t[hd])([^>]*)>(.*?)</\1>` — the back-referenced cell
pattern of `update_table_cell`: the closing tag must repeat the opening
one, so a failed candidate can be followed by a later successful one. -/
def findCellBFrom (s : List Char) : Nat → Nat → Option CellM
  | _, 0 => none
  | pos, fuel + 1 =>
    let dh := firstIdx (toL ("<th")) (s.drop pos)
    let dd := firstIdx (toL ("<td")) (s.drop pos)
    match minOpt dh dd with
    | none => none
    | some d =>
      let i := pos + d
      let isTh := dh = some d
      let closeL := if isTh then toL ("</th>") else toL ("</td>")
      match firstIdx ['>'] (s.drop (i + 3)) with
      | none => findCellBFrom s (i + 1) fuel
      | some dj =>
        let oe := i + 3 + dj + 1
        match firstIdx closeL (s.drop oe) with
        | none => findCellBFrom s (i + 1) fuel
        | some dk => some ⟨i, oe, oe + dk, oe + dk + 5, isTh⟩

/-- Embeds `re.finditer`: non-overlapping matches, each scan resuming at the end
of the previous match. -/
def finditerTagF (openL closeL s : List Char) : Nat → Nat → List TagM
  | _, 0 => []
  | pos, fuel + 1 =>
    match findTagFrom openL closeL s pos (s.length + 1) with
    | none => []
    | some t => t :: finditerTagF openL closeL s t.me fuel

def finditerTag (openL closeL s : List Char) : List TagM :=
  finditerTagF openL closeL s 0 (s.length + 1)

def finditerCell2F (s : List Char) : Nat → Nat → List TagM
  | _, 0 => []
  | pos, fuel + 1 =>
    match findCell2From s pos (s.length + 1) with
    | none => []
    | some t => t :: finditerCell2F s t.me fuel

def finditerCell2 (s : List Char) : List TagM :=
  finditerCell2F s 0 (s.length + 1)

def finditerCellBF (s : List Char) : Nat → Nat → List CellM
  | _, 0 => []
  | pos, fuel + 1 =>
    match findCellBFrom s pos (s.length + 1) with
    | none => []
    | some t => t :: finditerCellBF s t.me fuel

def finditerCellB (s : List Char) : List CellM :=
  finditerCellBF s 0 (s.length + 1)

/-- Embeds `re.sub` with a function replacement over the grouped tag pattern
`(OPEN[^>]*>)(.*?)(CLOSE)`: the replacement receives the three groups. -/
def subTagF (openL closeL : List Char)
    (f : List Char → List Char → List Char → List Char) : Nat → List Char → List Char
  | 0, s => s
  | fuel + 1, s =>
    match findTagFrom openL closeL s 0 (s.length + 1) with
    | none => s
    | some t =>
      s.take t.ms ++ f (extract s t.ms t.oe) (extract s t.oe t.ce) (extract s t.ce t.me) ++
        subTagF openL closeL f fuel (s.drop t.me)

def subTag (openL closeL : List Char)
    (f : List Char → List Char → List Char → List Char) (s : List Char) : List Char :=
  subTagF openL closeL f (s.length + 1) s

/-- All `<table[^>]*>.*?</table>` matches of a document. -/
def tablesOf (doc : List Char) : List TagM :=
  finditerTag (toL ("<table")) (toL ("</table>")) doc

def tableAt (doc : List Char) (ti : Nat) : Option TagM := (tablesOf doc)[ti]?

/-- All `<tr[^>]*>.*?</tr>` matches of a table's text. -/
def rowsOf (tableHtml : List Char) : List TagM :=
  finditerTag (toL ("<tr")) (toL ("</tr>")) tableHtml

/-- Embeds `re.search(r'PRE([^"]*)"', s)`: first occurrence of the literal that
is followed by a closing quote; used for `style=`/`class=`/highlight
attribute copying. -/
def searchAttr (pre : List Char) : List Char → Option (List Char)
  | [] => none
  | c :: cs =>
    if pre.isPrefixOf (c :: cs) then
      let r := (c :: cs).drop pre.length
      let v := r.takeWhile (· != '\"')
      if (r.drop v.length).head? = some '\"' then some v else searchAttr pre cs
    else searchAttr pre cs

/-- Embeds `re.search(r'colspan="(\d+)"', s)`, parsed with `int`. -/
def searchColspan : List Char → Option Nat
  | [] => none
  | c :: cs =>
    if (toL ("colspan=\"")).isPrefixOf (c :: cs) then
      let r := (c :: cs).drop 9
      let ds := r.takeWhile isDigitCh
      if !ds.isEmpty && (r.drop ds.length).head? = some '\"' then some (parseNatDigits ds)
      else searchColspan cs
    else searchColspan cs

def colspanLit (n : Nat) : List Char :=
  toL ("colspan=\"") ++ natDigits n ++ ['\"']

/-! ### Structural table editor (pure document transforms of the five
`ConfluenceAPI` table methods; the page fetch and write-back around them
are external I/O and out of scope) -/

inductive EditError where
  | tableOutOfRange
  | rowOutOfRange
  | columnOutOfRange
  | rowPositionOutOfRange
  | mergedCells
  | rowSpanPresent
  | noMatch
  deriving DecidableEq

instance {ε α : Type} [DecidableEq ε] [DecidableEq α] : DecidableEq (Except ε α) :=
  fun x y =>
    match x, y with
    | .ok a, .ok b =>
      if h : a = b then .isTrue (by rw [h]) else .isFalse (fun hh => h (Except.ok.inj hh))
    | .error a, .error b =>
      if h : a = b then .isTrue (by rw [h]) else .isFalse (fun hh => h (Except.error.inj hh))
    | .ok _, .error _ => .isFalse (fun hh => Except.noConfusion hh)
    | .error _, .ok _ => .isFalse (fun hh => Except.noConfusion hh)

/-- Embeds `insert_column`'s per-row closure `process_row` (lines 833-915). -/
def insert_column_row (colPos : Nat) (colName defVal : List Char)
    (headerStyle : Option (List Char)) (g1 g2 g3 : List Char) : List Char :=
  let cells := finditerCell2 g2
  match cells with
  | [] => g1 ++ g2 ++ g3
  | c0 :: _ =>
    let firstTag := extract g2 c0.ms c0.oe
    let isMergeRow := (searchColspan firstTag).isSome && cells.length ≤ 2
    if isMergeRow then
      let n := (searchColspan firstTag).getD 0
      let newTag := replaceAll firstTag (colspanLit n) (colspanLit (n + 1))
      g1 ++ replaceFirst g2 firstTag newTag ++ g3
    else
      let ip := min colPos cells.length
      let isHeader := occursIn (toL ("<th")) firstTag
      let refTag := extract g2 ((if 0 < ip then (cells[ip - 1]?).getD c0 else c0).ms)
        ((if 0 < ip then (cells[ip - 1]?).getD c0 else c0).oe)
      let newCell :=
        if isHeader then
          let style0 := (searchAttr (toL ("style=\"")) refTag).getD []
          let style := match headerStyle with
            | some h => if h.isEmpty then style0 else h
            | none => style0
          toL ("<th style=\"") ++ style ++ toL ("\">") ++ colName ++ toL ("</th>")
        else
          let style := (searchAttr (toL ("style=\"")) refTag).getD []
          let cls := (searchAttr (toL ("class=\"")) refTag).getD []
          let hl := (searchAttr (toL ("data-highlight-colour=\"")) refTag).getD []
          toL ("<td") ++
            (if cls.isEmpty then [] else toL (" class=\"") ++ cls ++ ['\"']) ++
            (if style.isEmpty then [] else toL (" style=\"") ++ style ++ ['\"']) ++
            (if hl.isEmpty then [] else toL (" data-highlight-colour=\"") ++ hl ++ ['\"']) ++
            ['>'] ++ defVal ++ toL ("</td>")
      if ip = 0 then g1 ++ newCell ++ g2 ++ g3
      else if cells.length ≤ ip then g1 ++ g2 ++ newCell ++ g3
      else
        let cp := (cells[ip]?).getD c0
        g1 ++ g2.take cp.ms ++ newCell ++ g2.drop cp.ms ++ g3

/-- The operation `insert_column` (lines 796-936): locate the table, rewrite each row,
splice the rebuilt table over the original span. -/
def insert_column (doc : List Char) (ti colPos : Nat) (colName defVal : List Char)
    (headerStyle : Option (List Char)) : Except EditError (List Char) :=
  match tableAt doc ti with
  | none => .error .tableOutOfRange
  | some t =>
    let newTable := extract doc t.ms t.oe ++
      subTag (toL ("<tr")) (toL ("</tr>")) (insert_column_row colPos colName defVal headerStyle)
        (extract doc t.oe t.ce) ++
      extract doc t.ce t.me
    .ok (doc.take t.ms ++ newTable ++ doc.drop t.me)

/-- Embeds `delete_column`'s per-row closure `process_row` (lines 970-1001):
the in-range check runs before the merge-row branch. -/
def delete_column_row (pos : Nat) (g1 g2 g3 : List Char) : List Char :=
  let cells := finditerCell2 g2
  match cells with
  | [] => g1 ++ g2 ++ g3
  | c0 :: _ =>
    if cells.length ≤ pos then g1 ++ g2 ++ g3
    else
      let firstCell := extract g2 c0.ms c0.me
      let isMergeRow := (searchColspan firstCell).isSome && cells.length ≤ 2
      if isMergeRow then
        let n := (searchColspan firstCell).getD 0
        if 1 < n then
          g1 ++ replaceFirst g2 firstCell
            (replaceAll firstCell (colspanLit n) (colspanLit (n - 1))) ++ g3
        else g1 ++ g2 ++ g3
      else
        let cp := (cells[pos]?).getD c0
        g1 ++ g2.take cp.ms ++ g2.drop cp.me ++ g3

/-- The operation `delete_column` (lines 938-1022). -/
def delete_column (doc : List Char) (ti pos : Nat) : Except EditError (List Char) :=
  match tableAt doc ti with
  | none => .error .tableOutOfRange
  | some t =>
    let newTable := extract doc t.ms t.oe ++
      subTag (toL ("<tr")) (toL ("</tr>")) (delete_column_row pos) (extract doc t.oe t.ce) ++
      extract doc t.ce t.me
    .ok (doc.take t.ms ++ newTable ++ doc.drop t.me)

/-- The operation `update_table_cell` (lines 1024-1109): bounds checks, the raw
case-insensitive `colspan`/`rowspan` refusal, then a cell splice that
preserves the cell's tag and attributes. -/
def update_table_cell (doc : List Char) (ti ri ci : Nat) (content : List Char)
    (append : Bool) : Except EditError (List Char) :=
  match tableAt doc ti with
  | none => .error .tableOutOfRange
  | some t =>
    let tableHtml := extract doc t.ms t.me
    let rows := rowsOf tableHtml
    match rows[ri]? with
    | none => .error .rowOutOfRange
    | some r =>
      let rowHtml := extract tableHtml r.ms r.me
      if occursIn (toL ("colspan")) (lowerL rowHtml) ||
          occursIn (toL ("rowspan")) (lowerL rowHtml) then
        .error .mergedCells
      else
        let cells := finditerCellB rowHtml
        match cells[ci]? with
        | none => .error .columnOutOfRange
        | some cm =>
          let tag := if cm.isTh then toL ("th") else toL ("td")
          let attrs := extract rowHtml (cm.ms + 3) (cm.oe - 1)
          let oldContent := extract rowHtml cm.oe cm.ce
          let newContent := process_cell_content content
          let finalContent := if append then oldContent ++ newContent else newContent
          let newCell := '<' :: tag ++ attrs ++ '>' :: finalContent ++ toL ("</") ++ tag ++ ['>']
          let newRow := rowHtml.take cm.ms ++ newCell ++ rowHtml.drop cm.me
          let newTable := tableHtml.take r.ms ++ newRow ++ tableHtml.drop r.me
          .ok (doc.take t.ms ++ newTable ++ doc.drop t.me)

/-- The new row built by `insert_table_row` (lines 1147-1150). -/
def buildRow (vals : List (List Char)) (isHeader : Bool) : List Char :=
  let tag := if isHeader then toL ("th") else toL ("td")
  toL ("<tr>") ++
    (vals.map (fun v => '<' :: tag ++ '>' :: process_cell_content v ++
      toL ("</") ++ tag ++ ['>'])).flatten ++
    toL ("</tr>")

/-- Embeds `re.search(r'<tbody[^>]*>', tableHtml).end()`. -/
def tbodyOpenEnd (tableHtml : List Char) : Option Nat :=
  match firstIdx (toL ("<tbody")) tableHtml with
  | none => none
  | some i =>
    match firstIdx ['>'] (tableHtml.drop (i + 6)) with
    | none => none
    | some dj => some (i + 6 + dj + 1)

/-- Embeds `re.match(r'<table[^>]*>', tableHtml).end()` (anchored). -/
def tableOpenEnd (tableHtml : List Char) : Option Nat :=
  if (toL ("<table")).isPrefixOf tableHtml then
    match firstIdx ['>'] (tableHtml.drop 6) with
    | none => none
    | some dj => some (6 + dj + 1)
  else none

/-- The operation `insert_table_row` (lines 1111-1186).  Note the guard is
`row_position > len(rows)`, so `row_position = len(rows)` appends. -/
def insert_table_row (doc : List Char) (ti pos : Nat) (vals : List (List Char))
    (isHeader : Bool) : Except EditError (List Char) :=
  match tableAt doc ti with
  | none => .error .tableOutOfRange
  | some t =>
    let tableHtml := extract doc t.ms t.me
    let rows := rowsOf tableHtml
    if rows.length < pos then .error .rowPositionOutOfRange
    else
      let newRow := buildRow vals isHeader
      let insertPos :=
        if pos = 0 then
          match rows with
          | r0 :: _ => r0.ms
          | [] =>
            match tbodyOpenEnd tableHtml with
            | some j => j
            | none => (tableOpenEnd tableHtml).getD 0
        else if rows.length ≤ pos then ((rows.getLast?).getD ⟨0, 0, 0, 0⟩).me
        else ((rows[pos - 1]?).getD ⟨0, 0, 0, 0⟩).me
      let newTable := tableHtml.take insertPos ++ newRow ++ tableHtml.drop insertPos
      .ok (doc.take t.ms ++ newTable ++ doc.drop t.me)

/-- The operation `delete_table_row` (lines 1188-1242): bounds check, then refusal when
the raw row text contains `rowspan` (case-insensitively), else remove the
row's span. -/
def delete_table_row (doc : List Char) (ti ri : Nat) : Except EditError (List Char) :=
  match tableAt doc ti with
  | none => .error .tableOutOfRange
  | some t =>
    let tableHtml := extract doc t.ms t.me
    let rows := rowsOf tableHtml
    match rows[ri]? with
    | none => .error .rowOutOfRange
    | some r =>
      if occursIn (toL ("rowspan")) (lowerL (extract tableHtml r.ms r.me)) then
        .error .rowSpanPresent
      else
        .ok (doc.take t.ms ++ (tableHtml.take r.ms ++ tableHtml.drop r.me) ++ doc.drop t.me)

/-! ### Exact-substring patch (`edit_page`, lines 355-398) -/

/-- The Markdown-sniffing step of `edit_page`: a replacement fragment that
is non-empty after stripping and does not start with `<` is compiled from
Markdown first. -/
def processNewFragment (newHtml : List Char) : List Char :=
  if !(stripB newHtml).isEmpty && (stripB newHtml).head? != some '<' then
    markdown_to_confluence newHtml
  else newHtml

/-- The document transform of `edit_page`: fail unless `oldHtml` occurs
verbatim, else replace its first occurrence. -/
def edit_page (doc oldHtml newHtml : List Char) : Except EditError (List Char) :=
  if !occursIn oldHtml doc then .error .noMatch
  else .ok (replaceFirst doc oldHtml (processNewFragment newHtml))

/-! ### Storage → Markdown decompiler (`confluence_to_markdown`, lines 1431-1521)

An ordered sequence of whole-document rewrites, each embedded as a
`subScan` matcher. -/

/-- Shorthand: run a matcher over a whole document with sufficient fuel. -/
def subSc (tryM : List Char → Option (List Char × List Char)) (s : List Char) : List Char :=
  subScan tryM (s.length + 1) s

/-- Matcher for `OPEN[^>]*>(.*?)CLOSE` (DOTALL), replacement built from
the body group. -/
def tagLazyTry (openL closeL : List Char) (mk : List Char → List Char)
    (s : List Char) : Option (List Char × List Char) :=
  if openL.isPrefixOf s then
    match firstIdx ['>'] (s.drop openL.length) with
    | none => none
    | some dj =>
      let oe := openL.length + dj + 1
      match firstIdx closeL (s.drop oe) with
      | none => none
      | some dk => some (mk (extract s oe (oe + dk)), s.drop (oe + dk + closeL.length))
  else none

/-- Matcher for `L1(.*?)L2` (DOTALL) with literal delimiters. -/
def litLazyTry (l1 l2 : List Char) (mk : List Char → List Char)
    (s : List Char) : Option (List Char × List Char) :=
  if l1.isPrefixOf s then
    match firstIdx l2 (s.drop l1.length) with
    | none => none
    | some dk =>
      some (mk (extract s l1.length (l1.length + dk)), s.drop (l1.length + dk + l2.length))
  else none

/-- Candidate offsets of `href="` inside the open tag's `[^>]*` region, in
the greedy engine's order (longest first `[^>]*`, hence last occurrence
first). -/
def anchorCands (region : List Char) : List Nat :=
  ((List.range (region.length + 1)).filter
    (fun q => (toL ("href=\"")).isPrefixOf (region.drop q))).reverse

/-- Attempt the tail of `<a[^>]*href="([^"]*)"[^>]*>(.*?)</a>` for each
candidate `href="` offset; `rest` is the text after the `<a`. -/
def anchorTryAt (rest : List Char) : List Nat → Option (List Char × List Char)
  | [] => none
  | q :: qs =>
    let url := (rest.drop (q + 6)).takeWhile (· != '\"')
    match (rest.drop (q + 6 + url.length)).head? with
    | some _ =>
      let r2 := rest.drop (q + 6 + url.length + 1)
      match firstIdx ['>'] r2 with
      | none => anchorTryAt rest qs
      | some j2 =>
        let r3 := r2.drop (j2 + 1)
        match firstIdx (toL ("</a>")) r3 with
        | none => anchorTryAt rest qs
        | some k => some ('[' :: r3.take k ++ toL ("](") ++ url ++ [')'], r3.drop (k + 4))
    | none => anchorTryAt rest qs

/-- Anchor rule `<a[^>]*href="([^"]*)"[^>]*>(.*?)</a>` → `[text](url)`.  The first
`[^>]*` is greedy, so the engine binds `href="` at its last occurrence
before the first `>`, backtracking to earlier ones on failure; the URL
character class `[^"]*` may run past that `>`. -/
def anchorTry (s : List Char) : Option (List Char × List Char) :=
  match s with
  | '<' :: 'a' :: rest =>
    match firstIdx ['>'] rest with
    | none => none
    | some j => anchorTryAt rest (anchorCands (rest.take j))
  | _ => none

def riUrlLit : List Char := toL ("<ri:url ri:value=\"")

/-- Tail of the external-image pattern after the `<ac:image[^>]*>` open
tag: the lazy `.*?` tries successive occurrences of the `<ri:url` literal
until the rest of the pattern matches. -/
def acImageTryFrom (u : List Char) : Nat → Nat → Option (List Char × List Char)
  | _, 0 => none
  | pos, fuel + 1 =>
    match firstIdx riUrlLit (u.drop pos) with
    | none => none
    | some d =>
      let m := pos + d
      let url := (u.drop (m + 18)).takeWhile (· != '\"')
      if url.isEmpty then acImageTryFrom u (m + 1) fuel
      else
        match (u.drop (m + 18 + url.length)).head? with
        | some _ =>
          let r2 := u.drop (m + 18 + url.length + 1)
          match firstIdx ['>'] r2 with
          | none => acImageTryFrom u (m + 1) fuel
          | some j2 =>
            let r3 := r2.drop (j2 + 1)
            match firstIdx (toL ("</ac:image>")) r3 with
            | none => acImageTryFrom u (m + 1) fuel
            | some k => some (toL ("![](") ++ url ++ [')'], r3.drop (k + 11))
        | none => acImageTryFrom u (m + 1) fuel

/-- External-image rule `<ac:image[^>]*>.*?<ri:url ri:value="([^"]+)"[^>]*/?>.*?</ac:image>`
→ `![](url)`. -/
def acImageTry (s : List Char) : Option (List Char × List Char) :=
  if (toL ("<ac:image")).isPrefixOf s then
    match firstIdx ['>'] (s.drop 9) with
    | none => none
    | some dj =>
      let u := s.drop (9 + dj + 1)
      acImageTryFrom u 0 (u.length + 1)
  else none

/-- Wrapper rule `</?[uo]l[^>]*>` → removed. -/
def listWrapTry (s : List Char) : Option (List Char × List Char) :=
  match s with
  | '<' :: '/' :: c :: 'l' :: rest =>
    if c = 'u' || c = 'o' then
      match firstIdx ['>'] rest with
      | none => none
      | some j => some ([], rest.drop (j + 1))
    else none
  | '<' :: c :: 'l' :: rest =>
    if c = 'u' || c = 'o' then
      match firstIdx ['>'] rest with
      | none => none
      | some j => some ([], rest.drop (j + 1))
    else none
  | _ => none

/-- Tag stripping `<[^>]+>` → removed (final tag-stripping pass). -/
def stripTagTry (s : List Char) : Option (List Char × List Char) :=
  match s with
  | '<' :: rest =>
    let inner := rest.takeWhile (· != '>')
    if inner.isEmpty then none
    else
      match (rest.drop inner.length).head? with
      | some _ => some ([], rest.drop (inner.length + 1))
      | none => none
  | _ => none

def joinL (sep : List Char) : List (List Char) → List Char
  | [] => []
  | [x] => x
  | x :: xs => x ++ sep ++ joinL sep xs

/-- One Markdown table cell: inner tags stripped, then stripped of
whitespace. -/
def mdCell (c : List Char) : List Char :=
  stripB (subSc stripTagTry c)

/-- The row lines of `convert_table`, with the `---` separator inserted
after the first row. -/
def buildMdRows : List (List Char) → List (List Char)
  | [] => []
  | r0 :: rest =>
    let cells0 := (finditerCell2 r0).map (fun t => mdCell (extract r0 t.oe t.ce))
    let hd := toL ("| ") ++ joinL (toL (" | ")) cells0 ++ toL (" |")
    let sep := '|' :: joinL ['|'] (List.replicate cells0.length (toL ("---"))) ++ ['|']
    hd :: sep :: rest.map (fun r =>
      let cs := (finditerCell2 r).map (fun t => mdCell (extract r t.oe t.ce))
      toL ("| ") ++ joinL (toL (" | ")) cs ++ toL (" |"))

/-- Table rule `<table[^>]*>.*?</table>` → Markdown table (function replacement
`convert_table`). -/
def tableConvTry (s : List Char) : Option (List Char × List Char) :=
  if (toL ("<table")).isPrefixOf s then
    match firstIdx ['>'] (s.drop 6) with
    | none => none
    | some dj =>
      match firstIdx (toL ("</table>")) (s.drop (6 + dj + 1)) with
      | none => none
      | some dk =>
        let me := 6 + dj + 1 + dk + 8
        let full := s.take me
        let rows := (finditerTag (toL ("<tr")) (toL ("</tr>")) full).map
          (fun t => extract full t.oe t.ce)
        some (joinWith '\n' (buildMdRows rows) ++ ['\n'], s.drop me)
  else none

def macroOpenLit : List Char := toL ("<ac:structured-macro")

def cdataOpenLit : List Char := toL ("<ac:plain-text-body><![CDATA[")

def macroCloseLit : List Char := toL ("]]></ac:plain-text-body></ac:structured-macro>")

/-- Matcher for the three macro patterns
`<ac:structured-macro[^>]*NAME[^>]*>.*?CDATAOPEN(.*?)CLOSE`: the name
literal must fall inside the open tag's `[^>]*` run (every greedy split
reaches the same first `>`).  Returns the full match, the CDATA body and
the remainder. -/
def macroTry (nameLit s : List Char) : Option (List Char × List Char × List Char) :=
  if macroOpenLit.isPrefixOf s then
    match firstIdx ['>'] (s.drop 20) with
    | none => none
    | some dj =>
      if occursIn nameLit (extract s 20 (20 + dj)) then
        let oe := 20 + dj + 1
        match firstIdx cdataOpenLit (s.drop oe) with
        | none => none
        | some d2 =>
          let bs := oe + d2 + cdataOpenLit.length
          match firstIdx macroCloseLit (s.drop bs) with
          | none => none
          | some d3 =>
            let me := bs + d3 + macroCloseLit.length
            some (s.take me, extract s bs (bs + d3), s.drop me)
      else none
  else none

def mermaidTry (s : List Char) : Option (List Char × List Char) :=
  (macroTry (toL ("ac:name=\"mermaid-macro\"")) s).map
    (fun p => (toL ("```mermaid\n") ++ p.2.1 ++ toL ("\n```\n"), p.2.2))

def plantumlTry (s : List Char) : Option (List Char × List Char) :=
  (macroTry (toL ("ac:name=\"plantuml\"")) s).map
    (fun p => (toL ("```plantuml\n") ++ p.2.1 ++ toL ("\n```\n"), p.2.2))

/-- Embeds `re.search(r'ac:parameter[^>]*ac:name="language"[^>]*>([^<]+)<', m)`
attempted at the head of `s` (which starts with `ac:parameter`). -/
def langAt (s : List Char) : Option (List Char) :=
  match firstIdx ['>'] (s.drop 12) with
  | none => none
  | some dj =>
    if occursIn (toL ("ac:name=\"language\"")) (extract s 12 (12 + dj)) then
      let r := s.drop (12 + dj + 1)
      let v := r.takeWhile (· != '<')
      if v.isEmpty then none
      else
        match (r.drop v.length).head? with
        | some _ => some v
        | none => none
    else none

def searchLang : List Char → Option (List Char)
  | [] => none
  | c :: cs =>
    if (toL ("ac:parameter")).isPrefixOf (c :: cs) then
      match langAt (c :: cs) with
      | some l => some l
      | none => searchLang cs
    else searchLang cs

def codeMacroTry (s : List Char) : Option (List Char × List Char) :=
  (macroTry (toL ("ac:name=\"code\"")) s).map
    (fun p => (toL ("```") ++ (searchLang p.1).getD [] ++ '\n' :: p.2.1 ++ toL ("\n```\n"),
      p.2.2))

/-! #### Entity decoding

The source calls `html.unescape`.  That stdlib function is modelled here
restricted to numeric character references and the semicolon-terminated
named entities relevant to this transcoder's own output (`amp`, `lt`,
`gt`, `quot`, `apos`, `nbsp`); other entities pass through unchanged. -/

def isHexCh (c : Char) : Bool :=
  isDigitCh c || ('a' ≤ c && c ≤ 'f') || ('A' ≤ c && c ≤ 'F')

def hexVal (c : Char) : Nat :=
  if isDigitCh c then c.toNat - 48
  else if 'a' ≤ c && c ≤ 'f' then c.toNat - 87
  else c.toNat - 55

def parseHexDigits (ds : List Char) : Nat :=
  ds.foldl (fun a c => a * 16 + hexVal c) 0

def namedEntities : List (List Char × Char) :=
  [(toL ("amp;"), '&'), (toL ("lt;"), '<'), (toL ("gt;"), '>'),
   (toL ("quot;"), '\"'), (toL ("apos;"), apos), (toL ("nbsp;"), Char.ofNat 160)]

def matchEntity : List (List Char × Char) → List Char → Option (Char × List Char)
  | [], _ => none
  | (nm, ch) :: rest, r =>
    if nm.isPrefixOf r then some (ch, r.drop nm.length) else matchEntity rest r

def unescapeTry (s : List Char) : Option (List Char × List Char) :=
  match s with
  | '&' :: '#' :: 'x' :: r =>
    let ds := r.takeWhile isHexCh
    if ds.isEmpty then none
    else
      match r.drop ds.length with
      | ';' :: rest => some ([Char.ofNat (parseHexDigits ds)], rest)
      | _ => none
  | '&' :: '#' :: 'X' :: r =>
    let ds := r.takeWhile isHexCh
    if ds.isEmpty then none
    else
      match r.drop ds.length with
      | ';' :: rest => some ([Char.ofNat (parseHexDigits ds)], rest)
      | _ => none
  | '&' :: '#' :: r =>
    let ds := r.takeWhile isDigitCh
    if ds.isEmpty then none
    else
      match r.drop ds.length with
      | ';' :: rest => some ([Char.ofNat (parseNatDigits ds)], rest)
      | _ => none
  | '&' :: r => (matchEntity namedEntities r).map (fun p => ([p.1], p.2))
  | _ => none

/-- Embeds `re.sub(r'\n{3,}', '\n\n', s)` as a run-counting scan: `k` pending
newlines are flushed as two when the (maximal) run reached three or more. -/
def emitRun (k : Nat) : List Char :=
  if 3 ≤ k then ['\n', '\n'] else List.replicate k '\n'

def collapseAux : Nat → List Char → List Char
  | k, [] => emitRun k
  | k, c :: cs => if c = '\n' then collapseAux (k + 1) cs else emitRun k ++ c :: collapseAux 0 cs

def collapseNL (s : List Char) : List Char := collapseAux 0 s

/-- The decompiler `confluence_to_markdown`: the ordered rewrite pipeline. -/
def confluence_to_markdown (html_content : List Char) : List Char :=
  let c := html_content
  let c := subSc (tagLazyTry (toL ("<h6")) (toL ("</h6>")) (fun b => toL ("###### ") ++ b ++ ['\n'])) c
  let c := subSc (tagLazyTry (toL ("<h5")) (toL ("</h5>")) (fun b => toL ("##### ") ++ b ++ ['\n'])) c
  let c := subSc (tagLazyTry (toL ("<h4")) (toL ("</h4>")) (fun b => toL ("#### ") ++ b ++ ['\n'])) c
  let c := subSc (tagLazyTry (toL ("<h3")) (toL ("</h3>")) (fun b => toL ("### ") ++ b ++ ['\n'])) c
  let c := subSc (tagLazyTry (toL ("<h2")) (toL ("</h2>")) (fun b => toL ("## ") ++ b ++ ['\n'])) c
  let c := subSc (tagLazyTry (toL ("<h1")) (toL ("</h1>")) (fun b => toL ("# ") ++ b ++ ['\n'])) c
  let c := subSc (litLazyTry (toL ("<strong>")) (toL ("</strong>")) (fun b => toL ("**") ++ b ++ toL ("**"))) c
  let c := subSc (litLazyTry (toL ("<b>")) (toL ("</b>")) (fun b => toL ("**") ++ b ++ toL ("**"))) c
  let c := subSc (litLazyTry (toL ("<em>")) (toL ("</em>")) (fun b => '*' :: b ++ ['*'])) c
  let c := subSc (litLazyTry (toL ("<i>")) (toL ("</i>")) (fun b => '*' :: b ++ ['*'])) c
  let c := subSc (litLazyTry (toL ("<code>")) (toL ("</code>")) (fun b => btick :: b ++ [btick])) c
  let c := subSc anchorTry c
  let c := subSc acImageTry c
  let c := subSc (tagLazyTry (toL ("<li")) (toL ("</li>")) (fun b => toL ("- ") ++ b ++ ['\n'])) c
  let c := subSc listWrapTry c
  let c := subSc (tagLazyTry (toL ("<blockquote")) (toL ("</blockquote>")) (fun b => toL ("> ") ++ b ++ ['\n'])) c
  let c := subSc tableConvTry c
  let c := subSc mermaidTry c
  let c := subSc plantumlTry c
  let c := subSc codeMacroTry c
  let c := subSc (tagLazyTry (toL ("<p")) (toL ("</p>")) (fun b => b ++ ['\n'])) c
  let c := subSc stripTagTry c
  let c := subSc unescapeTry c
  let c := collapseNL c
  stripB c

/-! ### Property-level definitions used by the theorems below -/

def TagM.Valid (t : TagM) (n : Nat) : Prop :=
  t.ms ≤ t.oe ∧ t.oe ≤ t.ce ∧ t.ce ≤ t.me ∧ t.me ≤ n

/-- The frame property: `out` agrees with `doc` outside the located span
of the `ti`-th table — it is the untouched prefix before the table,
arbitrary replacement text, and the untouched suffix after the table. -/
def FrameOk (doc : List Char) (ti : Nat) (out : List Char) : Prop :=
  ∃ t mid, tableAt doc ti = some t ∧ t.ms ≤ t.me ∧ t.me ≤ doc.length ∧
    out = doc.take t.ms ++ mid ++ doc.drop t.me

/-- No three consecutive newline characters anywhere in the string. -/
def noTripleB : List Char → Bool
  | a :: b :: c :: rest =>
    if a = '\n' && b = '\n' && c = '\n' then false else noTripleB (b :: c :: rest)
  | _ => true

/-- The first character, when present, is not whitespace. -/
def noLeadWsB (l : List Char) : Bool :=
  match l.head? with
  | some c => !isSpaceCh c
  | none => true

/-- The last character, when present, is not whitespace. -/
def noTrailWsB (l : List Char) : Bool :=
  match l.getLast? with
  | some c => !isSpaceCh c
  | none => true

/-! ## Basic lemmas -/

theorem take_extract_drop {a b : Nat} (s : List Char) (hab : a ≤ b) :
    s.take a ++ (extract s a b ++ s.drop b) = s := by
  have h1 : (s.take b).take a = s.take a := by
    rw [List.take_take, Nat.min_eq_left hab]
  conv_rhs => rw [← List.take_append_drop b s, ← List.take_append_drop a (s.take b), h1]
  rw [List.append_assoc]
  rfl

theorem firstIdx_bound {pat : List Char} (hp : pat ≠ []) :
    ∀ {s : List Char} {i : Nat}, firstIdx pat s = some i → i + pat.length ≤ s.length := by
  intro s
  induction s with
  | nil => intro i h; simp [firstIdx, hp] at h
  | cons c cs ih =>
    intro i h
    rw [firstIdx] at h
    by_cases hpre : pat.isPrefixOf (c :: cs)
    · rw [if_pos hpre] at h
      cases h
      simpa using (List.isPrefixOf_iff_prefix.mp hpre).length_le
    · rw [if_neg hpre] at h
      rcases Option.map_eq_some'.mp h with ⟨j, hj, rfl⟩
      have := ih hj
      simp only [List.length_cons]
      omega

theorem firstIdx_drop_bound {pat : List Char} (hp : pat ≠ []) {s : List Char} {pos d : Nat}
    (h : firstIdx pat (s.drop pos) = some d) : pos + d + pat.length ≤ s.length := by
  have h1 := firstIdx_bound hp h
  rw [List.length_drop] at h1
  have hl : 0 < pat.length := List.length_pos.mpr hp
  omega

theorem isPrefixOf_of_append {pat rest : List Char} : pat.isPrefixOf (pat ++ rest) = true :=
  List.isPrefixOf_iff_prefix.mpr (List.prefix_append pat rest)

/-- Correctness of `replaceFirst`: on a string containing the pattern it
splits the string at the leftmost occurrence and replaces exactly that
occurrence. -/
theorem replaceFirst_spec (pat rep : List Char) :
    ∀ s : List Char, occursIn pat s = true →
      ∃ pre post, s = pre ++ pat ++ post ∧
        (∀ pre2 post2, s = pre2 ++ pat ++ post2 → pre.length ≤ pre2.length) ∧
        replaceFirst s pat rep = pre ++ rep ++ post := by
  intro s
  induction s with
  | nil =>
    intro h
    rw [occursIn] at h
    have hpat : pat = [] := by
      rcases List.isPrefixOf_iff_prefix.mp h with ⟨t, ht⟩
      cases List.append_eq_nil.mp ht
      assumption
    subst hpat
    exact ⟨[], [], rfl, fun _ _ _ => Nat.zero_le _, by simp [replaceFirst]⟩
  | cons c cs ih =>
    intro h
    rw [occursIn] at h
    by_cases hpre : pat.isPrefixOf (c :: cs)
    · rcases List.isPrefixOf_iff_prefix.mp hpre with ⟨t, ht⟩
      refine ⟨[], t, by simp [ht.symm], fun _ _ _ => Nat.zero_le _, ?_⟩
      rw [replaceFirst, if_pos hpre]
      simp [← ht, List.drop_left]
    · have hcs : occursIn pat cs = true := by
        rcases (Bool.or_eq_true _ _).mp h with h1 | h1
        · exact absurd h1 hpre
        · exact h1
      rcases ih hcs with ⟨pre, post, heq, hmin, hrepl⟩
      refine ⟨c :: pre, post, by simp [heq], ?_, ?_⟩
      · intro pre2 post2 h2
        cases pre2 with
        | nil =>
          exfalso
          apply hpre
          simp only [List.nil_append] at h2
          rw [h2]
          exact isPrefixOf_of_append
        | cons d pre2' =>
          have h3 : cs = pre2' ++ pat ++ post2 := by
            simpa using congrArg List.tail h2
          have := hmin pre2' post2 h3
          simp only [List.length_cons]
          omega
      · rw [replaceFirst, if_neg hpre, hrepl]
        simp

/-! ## C2: the exact-substring patch -/

/-- C2: `edit_page`'s document transform.  If the old fragment is not a
literal substring the result is the no-match failure (so the document is
not modified); otherwise exactly the leftmost occurrence is replaced by
the processed new fragment (compiled from Markdown exactly when, after
stripping, it is non-empty and does not start with `<`), and the text
before and after that occurrence — including any further occurrences — is
kept verbatim. -/
theorem edit_page_patch_exact (doc oldH newH : List Char) :
    (occursIn oldH doc = false → edit_page doc oldH newH = .error .noMatch) ∧
    (occursIn oldH doc = true →
      ∃ pre post, doc = pre ++ oldH ++ post ∧
        (∀ pre2 post2, doc = pre2 ++ oldH ++ post2 → pre.length ≤ pre2.length) ∧
        edit_page doc oldH newH = .ok (pre ++ processNewFragment newH ++ post) ∧
        processNewFragment newH =
          (if !(stripB newH).isEmpty && (stripB newH).head? != some '<' then
            markdown_to_confluence newH else newH)) := by
  constructor
  · intro h
    rw [edit_page, h]
    rfl
  · intro h
    rcases replaceFirst_spec oldH (processNewFragment newH) doc h with
      ⟨pre, post, heq, hmin, hrepl⟩
    refine ⟨pre, post, heq, hmin, ?_, rfl⟩
    rw [edit_page, h]
    simp [hrepl]

/-- Witness for C2 at concrete inputs: a missing fragment fails with
no-match, and a fragment occurring twice is replaced at its first
occurrence only. -/
theorem edit_page_patch_exact_witness :
    edit_page (toL ("<p>a</p>")) (toL ("<p>z</p>")) (toL ("w")) = .error .noMatch ∧
    (∃ pre post, toL ("<p>old</p>x<p>old</p>") = pre ++ toL ("<p>old</p>") ++ post ∧
      (∀ pre2 post2, toL ("<p>old</p>x<p>old</p>") = pre2 ++ toL ("<p>old</p>") ++ post2 →
        pre.length ≤ pre2.length) ∧
      edit_page (toL ("<p>old</p>x<p>old</p>")) (toL ("<p>old</p>")) (toL ("<p>new</p>")) =
        .ok (pre ++ processNewFragment (toL ("<p>new</p>")) ++ post) ∧
      processNewFragment (toL ("<p>new</p>")) =
        (if !(stripB (toL ("<p>new</p>"))).isEmpty &&
            (stripB (toL ("<p>new</p>"))).head? != some '<' then
          markdown_to_confluence (toL ("<p>new</p>")) else toL ("<p>new</p>"))) :=
  ⟨(edit_page_patch_exact (toL ("<p>a</p>")) (toL ("<p>z</p>")) (toL ("w"))).1 (by decide),
   (edit_page_patch_exact (toL ("<p>old</p>x<p>old</p>")) (toL ("<p>old</p>"))
      (toL ("<p>new</p>"))).2 (by decide)⟩

/-! ## Locator validity and C1: the frame property of the table editor -/

theorem findTagFrom_valid {openL closeL s : List Char} (hc : closeL ≠ []) :
    ∀ {fuel pos : Nat} {t : TagM}, findTagFrom openL closeL s pos fuel = some t →
      t.Valid s.length := by
  intro fuel
  induction fuel with
  | zero => intro pos t h; simp [findTagFrom] at h
  | succ n ih =>
    intro pos t h
    rw [findTagFrom] at h
    simp only [] at h
    split at h
    · exact Option.noConfusion h
    · rename_i d h1
      split at h
      · exact ih h
      · rename_i dj h2
        split at h
        · exact ih h
        · rename_i dk h3
          cases h
          have b3 := firstIdx_drop_bound hc h3
          refine ⟨?_, ?_, ?_, ?_⟩ <;> simp <;> omega

theorem finditerTagF_valid {openL closeL s : List Char} (hc : closeL ≠ []) :
    ∀ {fuel pos : Nat} {t : TagM}, t ∈ finditerTagF openL closeL s pos fuel →
      t.Valid s.length := by
  intro fuel
  induction fuel with
  | zero => intro pos t h; simp [finditerTagF] at h
  | succ n ih =>
    intro pos t h
    rw [finditerTagF] at h
    split at h
    · simp at h
    · rename_i t' h1
      rcases List.mem_cons.mp h with rfl | h2
      · exact findTagFrom_valid hc h1
      · exact ih h2

theorem tableAt_valid {doc : List Char} {ti : Nat} {t : TagM} (h : tableAt doc ti = some t) :
    t.Valid doc.length := by
  have hm : t ∈ tablesOf doc := List.getElem?_mem h
  exact finditerTagF_valid (by decide) hm

theorem TagM.Valid.ms_le_me {t : TagM} {n : Nat} (h : t.Valid n) : t.ms ≤ t.me :=
  h.1.trans (h.2.1.trans h.2.2.1)

/-- C1: every successful structural table edit (column insert/delete,
cell update, row insert/delete) returns a document that is byte-identical
to the input at every position outside the span of the targeted table:
the result is the input's prefix before the table, some replacement text,
and the input's suffix after the table. -/
theorem table_ops_frame (doc : List Char) (ti pos ri ci : Nat)
    (nm dv cont : List Char) (hs : Option (List Char)) (vals : List (List Char))
    (hdr ap : Bool) (out : List Char) :
    (insert_column doc ti pos nm dv hs = .ok out → FrameOk doc ti out) ∧
    (delete_column doc ti pos = .ok out → FrameOk doc ti out) ∧
    (update_table_cell doc ti ri ci cont ap = .ok out → FrameOk doc ti out) ∧
    (insert_table_row doc ti pos vals hdr = .ok out → FrameOk doc ti out) ∧
    (delete_table_row doc ti ri = .ok out → FrameOk doc ti out) := by
  refine ⟨?_, ?_, ?_, ?_, ?_⟩
  · intro h
    rw [insert_column] at h
    split at h
    · exact Except.noConfusion h
    · rename_i t htab
      have hv := tableAt_valid htab
      exact ⟨t, _, htab, hv.ms_le_me, hv.2.2.2, (Except.ok.inj h).symm⟩
  · intro h
    rw [delete_column] at h
    split at h
    · exact Except.noConfusion h
    · rename_i t htab
      have hv := tableAt_valid htab
      exact ⟨t, _, htab, hv.ms_le_me, hv.2.2.2, (Except.ok.inj h).symm⟩
  · intro h
    rw [update_table_cell] at h
    simp only [] at h
    split at h
    · exact Except.noConfusion h
    · rename_i t htab
      have hv := tableAt_valid htab
      split at h
      · exact Except.noConfusion h
      · split at h
        · exact Except.noConfusion h
        · split at h
          · exact Except.noConfusion h
          · exact ⟨t, _, htab, hv.ms_le_me, hv.2.2.2, (Except.ok.inj h).symm⟩
  · intro h
    rw [insert_table_row] at h
    simp only [] at h
    split at h
    · exact Except.noConfusion h
    · rename_i t htab
      have hv := tableAt_valid htab
      split at h
      · exact Except.noConfusion h
      · exact ⟨t, _, htab, hv.ms_le_me, hv.2.2.2, (Except.ok.inj h).symm⟩
  · intro h
    rw [delete_table_row] at h
    simp only [] at h
    split at h
    · exact Except.noConfusion h
    · rename_i t htab
      have hv := tableAt_valid htab
      split at h
      · exact Except.noConfusion h
      · split at h
        · exact Except.noConfusion h
        · exact ⟨t, _, htab, hv.ms_le_me, hv.2.2.2, (Except.ok.inj h).symm⟩

/-- Witness for C1: the frame property at a concrete successful cell
update. -/
theorem table_ops_frame_witness :
    FrameOk
      (toL ("<p>x</p><table><tbody><tr><th>A</th><th>B</th></tr><tr><td>1</td><td>2</td></tr></tbody></table><p>y</p>"))
      0
      (toL ("<p>x</p><table><tbody><tr><th>A</th><th>B</th></tr><tr><td>new</td><td>2</td></tr></tbody></table><p>y</p>")) :=
  (table_ops_frame
    (toL ("<p>x</p><table><tbody><tr><th>A</th><th>B</th></tr><tr><td>1</td><td>2</td></tr></tbody></table><p>y</p>"))
    0 0 1 0 [] [] (toL ("new")) none [] false false _).2.2.1 (by decide)

/-! ## C3: index bounds (corrected) -/

/-- C3 counterexample: requesting column 5 of a table whose rows have at
most two cells does not fail — `delete_column` returns success and the
document is returned unchanged (every row is out of range, so every row
is left as it was), contradicting the claim that an out-of-range index
never yields a success result that leaves the document unchanged. -/
theorem index_bounds_counterexample :
    delete_column
      (toL ("<p>x</p><table><tbody><tr><th>A</th><th>B</th></tr><tr><td>1</td><td>2</td></tr></tbody></table><p>y</p>"))
      0 5 =
    .ok (toL ("<p>x</p><table><tbody><tr><th>A</th><th>B</th></tr><tr><td>1</td><td>2</td></tr></tbody></table><p>y</p>")) := by
  decide

/-- C3 (amended): the bounds that the code does enforce.  A table index at
or beyond the table count fails for all five operations; a row index at or
beyond the row count fails for `update_table_cell` and `delete_table_row`;
a column index at or beyond the cell count fails for `update_table_cell`
on a merge-free row.  The remaining index parameters are not enforced this
way: `insert_column` and `delete_column` always succeed once the table is
found (`insert_column` clamps the position, `delete_column` skips
out-of-range rows), and `insert_table_row` still succeeds at position =
row count (appending). -/
theorem index_bounds_enforced (doc : List Char) (ti pos ri ci : Nat)
    (nm dv cont : List Char) (hs : Option (List Char)) (vals : List (List Char))
    (hdr ap : Bool) :
    ((tablesOf doc).length ≤ ti →
      insert_column doc ti pos nm dv hs = .error .tableOutOfRange ∧
      delete_column doc ti pos = .error .tableOutOfRange ∧
      update_table_cell doc ti ri ci cont ap = .error .tableOutOfRange ∧
      insert_table_row doc ti pos vals hdr = .error .tableOutOfRange ∧
      delete_table_row doc ti ri = .error .tableOutOfRange) ∧
    (∀ t, tableAt doc ti = some t →
      (rowsOf (extract doc t.ms t.me)).length ≤ ri →
      update_table_cell doc ti ri ci cont ap = .error .rowOutOfRange ∧
      delete_table_row doc ti ri = .error .rowOutOfRange) ∧
    (∀ t r, tableAt doc ti = some t →
      (rowsOf (extract doc t.ms t.me))[ri]? = some r →
      occursIn (toL ("colspan")) (lowerL (extract (extract doc t.ms t.me) r.ms r.me)) = false →
      occursIn (toL ("rowspan")) (lowerL (extract (extract doc t.ms t.me) r.ms r.me)) = false →
      (finditerCellB (extract (extract doc t.ms t.me) r.ms r.me)).length ≤ ci →
      update_table_cell doc ti ri ci cont ap = .error .columnOutOfRange) ∧
    (∀ t, tableAt doc ti = some t →
      (∃ o, insert_column doc ti pos nm dv hs = .ok o) ∧
      (∃ o, delete_column doc ti pos = .ok o)) ∧
    (∀ t, tableAt doc ti = some t → pos = (rowsOf (extract doc t.ms t.me)).length →
      ∃ o, insert_table_row doc ti pos vals hdr = .ok o) := by
  refine ⟨?_, ?_, ?_, ?_, ?_⟩
  · intro hlen
    have hnone : tableAt doc ti = none := by
      rw [tableAt]; exact List.getElem?_eq_none_iff.mpr hlen
    refine ⟨?_, ?_, ?_, ?_, ?_⟩
    · rw [insert_column, hnone]
    · rw [delete_column, hnone]
    · rw [update_table_cell, hnone]
    · rw [insert_table_row, hnone]
    · rw [delete_table_row, hnone]
  · intro t htab hr
    have hrnone : (rowsOf (extract doc t.ms t.me))[ri]? = none :=
      List.getElem?_eq_none_iff.mpr hr
    constructor
    · rw [update_table_cell, htab]
      simp only []
      rw [hrnone]
    · rw [delete_table_row, htab]
      simp only []
      rw [hrnone]
  · intro t r htab hrow hm1 hm2 hcells
    have hcnone : (finditerCellB (extract (extract doc t.ms t.me) r.ms r.me))[ci]? = none :=
      List.getElem?_eq_none_iff.mpr hcells
    rw [update_table_cell, htab]
    simp only []
    rw [hrow]
    simp only [hm1, hm2, Bool.or_self]
    rw [if_neg (by simp)]
    rw [hcnone]
  · intro t htab
    constructor
    · rw [insert_column, htab]
      exact ⟨_, rfl⟩
    · rw [delete_column, htab]
      exact ⟨_, rfl⟩
  · intro t htab hpos
    rw [insert_table_row, htab]
    simp only []
    rw [if_neg (by omega)]
    exact ⟨_, rfl⟩

/-- Witness for C3 (amended) at concrete inputs: a document with no table
fails every operation with the table-range error, and a one-table document
with two rows fails a row-5 update with the row-range error. -/
theorem index_bounds_enforced_witness :
    insert_column (toL ("<p>q</p>")) 0 0 (toL ("C")) [] none = .error .tableOutOfRange ∧
    update_table_cell
      (toL ("<p>x</p><table><tbody><tr><th>A</th><th>B</th></tr><tr><td>1</td><td>2</td></tr></tbody></table><p>y</p>"))
      0 5 0 (toL ("v")) false = .error .rowOutOfRange :=
  ⟨((index_bounds_enforced (toL ("<p>q</p>")) 0 0 0 0 (toL ("C")) [] [] none [] false
      false).1 (by decide)).1,
   ((index_bounds_enforced
      (toL ("<p>x</p><table><tbody><tr><th>A</th><th>B</th></tr><tr><td>1</td><td>2</td></tr></tbody></table><p>y</p>"))
      0 0 5 0 [] [] (toL ("v")) none [] false false).2.1 ⟨8, 15, 88, 96⟩ (by decide)
      (by decide)).1⟩

/-! ## C4: insert_table_row placement (corrected) -/

/-- C4 counterexample: on a two-row table, position 3 (strictly beyond the
row count) fails with the position-range error instead of appending the
row at the end of the table as the claim states for every
`position >= len(rows)`. -/
theorem insert_row_position_counterexample :
    insert_table_row
      (toL ("<p>x</p><table><tbody><tr><th>A</th><th>B</th></tr><tr><td>1</td><td>2</td></tr></tbody></table><p>y</p>"))
      0 3 [toL ("x")] false = .error .rowPositionOutOfRange := by decide

/-- C4 (amended): `insert_table_row` builds the new row with `buildRow`
(one cell per value, `th` when `is_header` else `td`, each value through
the cell content processor) and places it: at position 0 immediately
before the first row; for `0 < position ≤ len(rows)` immediately after
the row at position−1 (so position = len(rows) appends after the last
row); for an empty table immediately after the opening `tbody` tag when
one exists and otherwise immediately after the opening `table` tag; and
it fails with the position-range error when position > len(rows). -/
theorem insert_row_position (doc : List Char) (ti pos : Nat) (vals : List (List Char))
    (hdr : Bool) :
    ∀ t, tableAt doc ti = some t →
      ((rowsOf (extract doc t.ms t.me)).length < pos →
        insert_table_row doc ti pos vals hdr = .error .rowPositionOutOfRange) ∧
      (∀ r0 rs, rowsOf (extract doc t.ms t.me) = r0 :: rs → pos = 0 →
        insert_table_row doc ti pos vals hdr =
          .ok (doc.take t.ms ++
            ((extract doc t.ms t.me).take r0.ms ++ buildRow vals hdr ++
              (extract doc t.ms t.me).drop r0.ms) ++ doc.drop t.me)) ∧
      (rowsOf (extract doc t.ms t.me) = [] →
        ∀ j, tbodyOpenEnd (extract doc t.ms t.me) = some j →
        insert_table_row doc ti 0 vals hdr =
          .ok (doc.take t.ms ++
            ((extract doc t.ms t.me).take j ++ buildRow vals hdr ++
              (extract doc t.ms t.me).drop j) ++ doc.drop t.me)) ∧
      (rowsOf (extract doc t.ms t.me) = [] →
        tbodyOpenEnd (extract doc t.ms t.me) = none →
        ∀ j, tableOpenEnd (extract doc t.ms t.me) = some j →
        insert_table_row doc ti 0 vals hdr =
          .ok (doc.take t.ms ++
            ((extract doc t.ms t.me).take j ++ buildRow vals hdr ++
              (extract doc t.ms t.me).drop j) ++ doc.drop t.me)) ∧
      (∀ rp, 0 < pos → pos ≤ (rowsOf (extract doc t.ms t.me)).length →
        (rowsOf (extract doc t.ms t.me))[pos - 1]? = some rp →
        insert_table_row doc ti pos vals hdr =
          .ok (doc.take t.ms ++
            ((extract doc t.ms t.me).take rp.me ++ buildRow vals hdr ++
              (extract doc t.ms t.me).drop rp.me) ++ doc.drop t.me)) := by
  intro t htab
  refine ⟨?_, ?_, ?_, ?_, ?_⟩
  · intro hlt
    rw [insert_table_row, htab]
    simp only []
    rw [if_pos hlt]
  · intro r0 rs hrows h0
    subst h0
    rw [insert_table_row, htab]
    simp only []
    rw [hrows, if_neg (Nat.not_lt_zero _)]
    rfl
  · intro hrows j hj
    rw [insert_table_row, htab]
    simp only []
    rw [hrows, hj, if_neg (Nat.not_lt_zero _)]
    rfl
  · intro hrows hnb j hj
    rw [insert_table_row, htab]
    simp only []
    rw [hrows, hnb, hj, if_neg (Nat.not_lt_zero _)]
    rfl
  · intro rp hpos hle hrp
    rw [insert_table_row, htab]
    simp only []
    rw [if_neg (by omega)]
    by_cases hcase : (rowsOf (extract doc t.ms t.me)).length ≤ pos
    · have hlast : (rowsOf (extract doc t.ms t.me)).getLast? = some rp := by
        rw [List.getLast?_eq_getElem?]
        have heq : (rowsOf (extract doc t.ms t.me)).length - 1 = pos - 1 := by omega
        rw [heq]
        exact hrp
      rw [if_neg (by omega), if_pos hcase, hlast]
      rfl
    · rw [if_neg (by omega), if_neg hcase, hrp]
      rfl

/-- Witness for C4 (amended): inserting at position 0 of a two-row table
places the built row immediately before the first located row. -/
theorem insert_row_position_witness :
    insert_table_row
      (toL ("<p>x</p><table><tbody><tr><th>A</th><th>B</th></tr><tr><td>1</td><td>2</td></tr></tbody></table><p>y</p>"))
      0 0 [toL ("x")] false =
    .ok ((toL ("<p>x</p><table><tbody><tr><th>A</th><th>B</th></tr><tr><td>1</td><td>2</td></tr></tbody></table><p>y</p>")).take 8 ++
      ((extract (toL ("<p>x</p><table><tbody><tr><th>A</th><th>B</th></tr><tr><td>1</td><td>2</td></tr></tbody></table><p>y</p>")) 8 96).take 14 ++
        buildRow [toL ("x")] false ++
        (extract (toL ("<p>x</p><table><tbody><tr><th>A</th><th>B</th></tr><tr><td>1</td><td>2</td></tr></tbody></table><p>y</p>")) 8 96).drop 14) ++
      (toL ("<p>x</p><table><tbody><tr><th>A</th><th>B</th></tr><tr><td>1</td><td>2</td></tr></tbody></table><p>y</p>")).drop 96) :=
  ((insert_row_position
      (toL ("<p>x</p><table><tbody><tr><th>A</th><th>B</th></tr><tr><td>1</td><td>2</td></tr></tbody></table><p>y</p>"))
      0 0 [toL ("x")] false ⟨8, 15, 88, 96⟩ (by decide)).2.1
    ⟨14, 18, 38, 43⟩ [⟨43, 47, 67, 72⟩] (by decide) rfl)

/-! ## C5: delete_column per-row behaviour (corrected) -/

/-- C5 counterexample: deleting column 1 of a table whose first row is a
one-cell merge row (`colspan="3"`) leaves that merge row entirely
unchanged — still `colspan="3"` — because the in-range check
(`column_position >= len(cells)`) runs before the merge branch; the claim
instead requires every merge row's colspan to be decremented (here to 2).
The second row (three cells) does lose its cell at position 1. -/
theorem delete_column_merge_counterexample :
    delete_column
      (toL ("<table><tbody><tr><td colspan=\"3\">X</td></tr><tr><td>a</td><td>b</td><td>c</td></tr></tbody></table>"))
      0 1 =
    .ok (toL ("<table><tbody><tr><td colspan=\"3\">X</td></tr><tr><td>a</td><td>c</td></tr></tbody></table>")) := by
  decide

/-- C5 (amended): `delete_column` rewrites every `(<tr[^>]*>)(.*?)(</tr>)`
match of the table content through `delete_column_row`, which behaves, for
each row: a row with no cells, or whose cell count is at or below the
requested position (merge rows included), is left unchanged without this
being an error; otherwise a merge row (first cell's text carries
`colspan="n"` and the row has at most two cells) has its first cell's
colspan decremented by one textually, or is left unchanged when the
colspan is already 1 (or 0); any other row has the cell at the position
removed. -/
theorem delete_column_rows (doc : List Char) (ti pos : Nat) :
    (∀ t, tableAt doc ti = some t →
      delete_column doc ti pos =
        .ok (doc.take t.ms ++
          (extract doc t.ms t.oe ++
            subTag (toL ("<tr")) (toL ("</tr>")) (delete_column_row pos)
              (extract doc t.oe t.ce) ++
            extract doc t.ce t.me) ++ doc.drop t.me)) ∧
    (∀ g1 g2 g3 : List Char,
      (finditerCell2 g2 = [] → delete_column_row pos g1 g2 g3 = g1 ++ g2 ++ g3) ∧
      (∀ c0 cs, finditerCell2 g2 = c0 :: cs → (c0 :: cs).length ≤ pos →
        delete_column_row pos g1 g2 g3 = g1 ++ g2 ++ g3) ∧
      (∀ c0 cs n, finditerCell2 g2 = c0 :: cs → pos < (c0 :: cs).length →
        searchColspan (extract g2 c0.ms c0.me) = some n → (c0 :: cs).length ≤ 2 →
        (n ≤ 1 → delete_column_row pos g1 g2 g3 = g1 ++ g2 ++ g3) ∧
        (1 < n → delete_column_row pos g1 g2 g3 =
          g1 ++ replaceFirst g2 (extract g2 c0.ms c0.me)
            (replaceAll (extract g2 c0.ms c0.me) (colspanLit n) (colspanLit (n - 1))) ++ g3)) ∧
      (∀ c0 cs cp, finditerCell2 g2 = c0 :: cs → pos < (c0 :: cs).length →
        (searchColspan (extract g2 c0.ms c0.me) = none ∨ 2 < (c0 :: cs).length) →
        (c0 :: cs)[pos]? = some cp →
        delete_column_row pos g1 g2 g3 = g1 ++ g2.take cp.ms ++ g2.drop cp.me ++ g3)) := by
  constructor
  · intro t htab
    rw [delete_column, htab]
  · intro g1 g2 g3
    refine ⟨?_, ?_, ?_, ?_⟩
    · intro hcells
      rw [delete_column_row]
      simp only []
      rw [hcells]
    · intro c0 cs hcells hle
      rw [delete_column_row]
      simp only []
      rw [hcells]
      simp only []
      rw [if_pos hle]
    · intro c0 cs n hcells hlt hcol h2
      have hd2 : decide ((c0 :: cs).length ≤ 2) = true := decide_eq_true h2
      constructor
      · intro hn
        rw [delete_column_row]
        simp only []
        rw [hcells]
        simp only []
        rw [if_neg (by omega), hcol]
        simp only [Option.isSome_some, Bool.true_and]
        rw [hd2, if_pos rfl]
        simp only [Option.getD_some]
        rw [if_neg (by omega)]
      · intro hn
        rw [delete_column_row]
        simp only []
        rw [hcells]
        simp only []
        rw [if_neg (by omega), hcol]
        simp only [Option.isSome_some, Bool.true_and]
        rw [hd2, if_pos rfl]
        simp only [Option.getD_some]
        rw [if_pos hn]
    · intro c0 cs cp hcells hlt hdis hcp
      rw [delete_column_row]
      simp only []
      rw [hcells]
      simp only []
      rw [if_neg (by omega)]
      rcases hdis with hnone | hbig
      · rw [hnone]
        simp only [Option.isSome_none, Bool.false_and]
        rw [if_neg (by simp), hcp]
        simp only [Option.getD_some]
      · have hd : decide ((c0 :: cs).length ≤ 2) = false := decide_eq_false (by omega)
        rw [hd]
        simp only [Bool.and_false]
        rw [if_neg (by simp), hcp]
        simp only [Option.getD_some]

/-- Witness for C5 (amended) at a concrete simple two-cell row: position 0
removes the first cell's span. -/
theorem delete_column_rows_witness :
    delete_column_row 0 (toL ("<tr>")) (toL ("<td>a</td><td>b</td>")) (toL ("</tr>")) =
      toL ("<tr>") ++ (toL ("<td>a</td><td>b</td>")).take 0 ++
        (toL ("<td>a</td><td>b</td>")).drop 10 ++ toL ("</tr>") :=
  ((delete_column_rows [] 0 0).2 (toL ("<tr>")) (toL ("<td>a</td><td>b</td>"))
    (toL ("</tr>"))).2.2.2 ⟨0, 4, 5, 10⟩ [⟨10, 14, 15, 20⟩] ⟨0, 4, 5, 10⟩
    (by decide) (by decide) (Or.inl (by decide)) (by decide)

/-! ## C6: merge protection -/

/-- C6: on a located row whose raw text contains (case-insensitively)
`colspan` or `rowspan`, `update_table_cell` fails with the merged-cells
error; on a row containing `rowspan`, `delete_table_row` fails with the
row-span error.  In this pure embedding an error result carries no
document at all — the failing operation performs no write and the
document is left completely unchanged. -/
theorem merge_protection (doc : List Char) (ti ri ci : Nat) (cont : List Char) (ap : Bool) :
    (∀ t r, tableAt doc ti = some t →
      (rowsOf (extract doc t.ms t.me))[ri]? = some r →
      (occursIn (toL ("colspan")) (lowerL (extract (extract doc t.ms t.me) r.ms r.me)) = true ∨
       occursIn (toL ("rowspan")) (lowerL (extract (extract doc t.ms t.me) r.ms r.me)) = true) →
      update_table_cell doc ti ri ci cont ap = .error .mergedCells) ∧
    (∀ t r, tableAt doc ti = some t →
      (rowsOf (extract doc t.ms t.me))[ri]? = some r →
      occursIn (toL ("rowspan")) (lowerL (extract (extract doc t.ms t.me) r.ms r.me)) = true →
      delete_table_row doc ti ri = .error .rowSpanPresent) := by
  constructor
  · intro t r htab hrow hmerge
    rw [update_table_cell, htab]
    simp only []
    rw [hrow]
    simp only []
    have hcond : (occursIn (toL ("colspan")) (lowerL (extract (extract doc t.ms t.me) r.ms r.me)) ||
        occursIn (toL ("rowspan")) (lowerL (extract (extract doc t.ms t.me) r.ms r.me))) = true := by
      rcases hmerge with h | h <;> simp [h]
    rw [if_pos hcond]
  · intro t r htab hrow hr
    rw [delete_table_row, htab]
    simp only []
    rw [hrow]
    simp only []
    rw [if_pos hr]

/-- Witness for C6 on a table whose first row carries `rowspan="2"`. -/
theorem merge_protection_witness :
    update_table_cell
      (toL ("<table><tbody><tr><td rowspan=\"2\">a</td></tr><tr><td>b</td></tr></tbody></table>"))
      0 0 0 (toL ("v")) false = .error .mergedCells ∧
    delete_table_row
      (toL ("<table><tbody><tr><td rowspan=\"2\">a</td></tr><tr><td>b</td></tr></tbody></table>"))
      0 0 = .error .rowSpanPresent :=
  ⟨(merge_protection
      (toL ("<table><tbody><tr><td rowspan=\"2\">a</td></tr><tr><td>b</td></tr></tbody></table>"))
      0 0 0 (toL ("v")) false).1 ⟨0, 7, 72, 80⟩ ⟨14, 18, 40, 45⟩ (by decide) (by decide)
      (Or.inr (by decide)),
   (merge_protection
      (toL ("<table><tbody><tr><td rowspan=\"2\">a</td></tr><tr><td>b</td></tr></tbody></table>"))
      0 0 0 (toL ("v")) false).2 ⟨0, 7, 72, 80⟩ ⟨14, 18, 40, 45⟩ (by decide) (by decide)
      (by decide)⟩

/-! ## C10: the refusal is a raw case-insensitive substring test -/

/-- C10: `update_table_cell`'s merged-cell refusal fires on a row that is
a plain two-cell grid with no span attributes at all, merely because a
cell's visible text contains the word `COLSPAN` — the check is a
case-insensitive substring test on the row's entire raw text.  The second
conjunct records that the document contains no lower-case `colspan` and
no `colspan=` attribute anywhere, so only the case-insensitive text match
can have triggered the refusal. -/
theorem update_cell_text_colspan_refusal :
    update_table_cell
      (toL ("<table><tbody><tr><td>NOTE: COLSPAN</td><td>b</td></tr></tbody></table>"))
      0 0 1 (toL ("v")) false = .error .mergedCells ∧
    occursIn (toL ("colspan"))
      (toL ("<table><tbody><tr><td>NOTE: COLSPAN</td><td>b</td></tr></tbody></table>")) = false ∧
    occursIn (toL ("colspan="))
      (toL ("<table><tbody><tr><td>NOTE: COLSPAN</td><td>b</td></tr></tbody></table>")) = false := by
  decide

/-! ## C8: decompiler output normalization -/

theorem noTripleB_tail {a : Char} {l : List Char} (h : noTripleB (a :: l) = true) :
    noTripleB l = true := by
  cases l with
  | nil => rfl
  | cons b l' =>
    cases l' with
    | nil => rfl
    | cons c r =>
      rw [noTripleB] at h
      split at h
      · exact absurd h (by simp)
      · exact h

theorem noTripleB_cons_of_ne {a : Char} (ha : a ≠ '\n') (l : List Char) :
    noTripleB (a :: l) = noTripleB l := by
  cases l with
  | nil => rfl
  | cons b l' =>
    cases l' with
    | nil => rfl
    | cons c r =>
      rw [noTripleB, if_neg (by simp [ha])]

theorem noTripleB_pad {k : Nat} (hk : k ≤ 2) {c : Char} (hc : c ≠ '\n') {l : List Char}
    (hl : noTripleB (c :: l) = true) :
    noTripleB (List.replicate k '\n' ++ c :: l) = true := by
  interval_cases k
  · simpa using hl
  · show noTripleB ('\n' :: c :: l) = true
    cases l with
    | nil => rfl
    | cons d r =>
      rw [noTripleB, if_neg (by simp [hc])]
      exact hl
  · show noTripleB ('\n' :: '\n' :: c :: l) = true
    rw [noTripleB, if_neg (by simp [hc])]
    cases l with
    | nil => rfl
    | cons d r =>
      rw [noTripleB, if_neg (by simp [hc])]
      exact hl

theorem noTripleB_replicate {m : Nat} (h : m ≤ 2) :
    noTripleB (List.replicate m '\n') = true := by
  interval_cases m <;> decide

theorem emitRun_eq (k : Nat) : emitRun k = List.replicate (min k 2) '\n' := by
  rw [emitRun]
  split
  · have h2 : min k 2 = 2 := by omega
    rw [h2]
    rfl
  · have h2 : min k 2 = k := by omega
    rw [h2]

theorem collapseAux_ok : ∀ (l : List Char) (k : Nat), noTripleB (collapseAux k l) = true := by
  intro l
  induction l with
  | nil =>
    intro k
    rw [collapseAux, emitRun_eq]
    exact noTripleB_replicate (by omega)
  | cons c cs ih =>
    intro k
    rw [collapseAux]
    by_cases hc : c = '\n'
    · rw [if_pos hc]
      exact ih (k + 1)
    · rw [if_neg hc, emitRun_eq]
      have hcl : noTripleB (c :: collapseAux 0 cs) = true := by
        rw [noTripleB_cons_of_ne hc]
        exact ih 0
      exact noTripleB_pad (by omega) hc hcl

theorem noTripleB_append_left : ∀ (l t : List Char), noTripleB (l ++ t) = true →
    noTripleB l = true := by
  intro l
  induction l with
  | nil => intro t _; rfl
  | cons a l' ih =>
    intro t h
    cases l' with
    | nil => rfl
    | cons b l'' =>
      cases l'' with
      | nil => rfl
      | cons c r =>
        rw [List.cons_append, List.cons_append, List.cons_append, noTripleB] at h
        rw [noTripleB]
        split at h
        · exact absurd h (by simp)
        · rename_i hcond
          rw [if_neg hcond]
          exact ih t (by rw [List.cons_append, List.cons_append]; exact h)

theorem noTripleB_dropWhile (p : Char → Bool) :
    ∀ {l : List Char}, noTripleB l = true → noTripleB (l.dropWhile p) = true := by
  intro l
  induction l with
  | nil => intro h; exact h
  | cons a l' ih =>
    intro h
    rw [List.dropWhile]
    split
    · exact ih (noTripleB_tail h)
    · exact h

theorem dropTrailing_pref (p : Char → Bool) (l : List Char) :
    dropTrailing p l <+: l := by
  rw [dropTrailing]
  have h1 : l.reverse.dropWhile p <:+ l.reverse := List.dropWhile_suffix p
  have h2 := List.reverse_prefix.mpr h1
  simpa using h2

theorem dropWhile_head_false (p : Char → Bool) :
    ∀ {l : List Char} {c : Char}, (l.dropWhile p).head? = some c → p c = false := by
  intro l
  induction l with
  | nil => intro c h; simp at h
  | cons a l' ih =>
    intro c h
    rw [List.dropWhile] at h
    split at h
    · exact ih h
    · rename_i hp
      rw [List.head?_cons] at h
      cases h
      exact Bool.not_eq_true _ ▸ (by simpa using hp)

theorem stripB_noTriple {l : List Char} (h : noTripleB l = true) :
    noTripleB (stripB l) = true := by
  have hy : noTripleB (l.dropWhile isSpaceCh) = true := noTripleB_dropWhile isSpaceCh h
  rcases dropTrailing_pref isSpaceCh (l.dropWhile isSpaceCh) with ⟨t, ht⟩
  exact noTripleB_append_left _ t (ht ▸ hy)

theorem stripB_noLead (l : List Char) : noLeadWsB (stripB l) = true := by
  rw [noLeadWsB]
  cases hh : (stripB l).head? with
  | none => rfl
  | some c =>
    rcases dropTrailing_pref isSpaceCh (l.dropWhile isSpaceCh) with ⟨t, ht⟩
    have hyc : (l.dropWhile isSpaceCh).head? = some c := by
      cases hsl : stripB l with
      | nil => rw [hsl] at hh; simp at hh
      | cons c0 rest =>
        rw [hsl] at hh
        rw [List.head?_cons] at hh
        cases hh
        have : stripB l ++ t = l.dropWhile isSpaceCh := ht
        rw [hsl] at this
        rw [← this]
        rfl
    simp only []
    rw [dropWhile_head_false isSpaceCh hyc]
    rfl

theorem stripB_noTrail (l : List Char) : noTrailWsB (stripB l) = true := by
  rw [noTrailWsB, List.getLast?_eq_head?_reverse]
  have hrev : (stripB l).reverse = (l.dropWhile isSpaceCh).reverse.dropWhile isSpaceCh := by
    rw [stripB, dropTrailing, List.reverse_reverse]
  rw [hrev]
  cases hh : ((l.dropWhile isSpaceCh).reverse.dropWhile isSpaceCh).head? with
  | none => rfl
  | some c =>
    simp only []
    rw [dropWhile_head_false isSpaceCh hh]
    rfl

/-- C8: for every input, `confluence_to_markdown`'s output contains no
run of three or more consecutive newlines, and neither starts nor ends
with a whitespace character — the final pipeline stages collapse every
3+-newline run to exactly two and strip both ends. -/
theorem decompiler_output_normalized (s : List Char) :
    noTripleB (confluence_to_markdown s) = true ∧
    noLeadWsB (confluence_to_markdown s) = true ∧
    noTrailWsB (confluence_to_markdown s) = true :=
  ⟨stripB_noTriple (collapseAux_ok _ 0), stripB_noLead _, stripB_noTrail _⟩

/-! ## C9: the inline image substitution discards alt text (corrected) -/

/-- C9 counterexample: the claim says the alt text never appears anywhere
in the output for any non-empty alt; but with alt `image` the (alt-free)
replacement tag itself contains the substring `image`, so the non-empty
alt does appear in the output. -/
theorem image_alt_coincidence :
    process_inline_formats (toL ("![image](u)")) =
      toL ("<ac:image><ri:url ri:value=\"u\"/></ac:image>") ∧
    occursIn (toL ("image")) (process_inline_formats (toL ("![image](u)"))) = true ∧
    toL ("image") ≠ [] := by decide

theorem linkScanF_id : ∀ (fuel : Nat) (s : List Char), '[' ∉ s → linkScanF fuel s = s := by
  intro fuel
  induction fuel with
  | zero => intro s _; rfl
  | succ n ih =>
    intro s hs
    rw [linkScanF.eq_def]
    split
    · rfl
    · split
      · rfl
      · exact absurd (List.mem_cons_self _ _) hs
      · rename_i fuel' heqf s' c cs hne
        obtain rfl : fuel' = n := by omega
        rw [ih cs (fun h => hs (List.mem_cons_of_mem c h))]

theorem boldScanF_id (d : Char) (pre post : List Char) :
    ∀ (fuel : Nat) (s : List Char), d ∉ s → boldScanF d pre post fuel s = s := by
  intro fuel
  induction fuel with
  | zero => intro s _; rfl
  | succ n ih =>
    intro s hs
    rw [boldScanF.eq_def]
    split
    · rfl
    · split
      · rfl
      · rfl
      · rename_i fuel' heqf s' c1 c2 rest
        obtain rfl : fuel' = n := by omega
        have hc1 : c1 ≠ d := fun h => hs (h ▸ List.mem_cons_self _ _)
        have htl : d ∉ c2 :: rest := fun h => hs (List.mem_cons_of_mem c1 h)
        rw [if_neg (by simp [hc1]), ih (c2 :: rest) htl]

theorem italicInlineF_id :
    ∀ (fuel : Nat) (prev : Option Char) (s : List Char), '*' ∉ s →
      italicInlineF fuel prev s = s := by
  intro fuel
  induction fuel with
  | zero => intro prev s _; rfl
  | succ n ih =>
    intro prev s hs
    rw [italicInlineF.eq_def]
    split
    · rfl
    · split
      · rfl
      · exact absurd (List.mem_cons_self _ _) hs
      · rename_i fuel' heqf s' c cs hne
        obtain rfl : fuel' = n := by omega
        rw [ih (some c) cs (fun h => hs (List.mem_cons_of_mem c h))]

theorem codeScanF_id : ∀ (fuel : Nat) (s : List Char), btick ∉ s →
    codeScanF fuel s = s := by
  intro fuel
  induction fuel with
  | zero => intro s _; rfl
  | succ n ih =>
    intro s hs
    rw [codeScanF.eq_def]
    split
    · rfl
    · split
      · rfl
      · rename_i fuel' heqf s' c cs
        obtain rfl : fuel' = n := by omega
        have hc : c ≠ btick := fun h => hs (h ▸ List.mem_cons_self _ _)
        rw [if_neg hc, ih cs (fun h => hs (List.mem_cons_of_mem c h))]

theorem takeWhile_append_eq (p : Char → Bool) :
    ∀ (a : List Char) (x : Char) (b : List Char), (∀ c ∈ a, p c = true) → p x = false →
      (a ++ x :: b).takeWhile p = a := by
  intro a
  induction a with
  | nil =>
    intro x b _ hx
    rw [List.nil_append, List.takeWhile_cons, hx]
    rfl
  | cons c a' ih =>
    intro x b ha hx
    rw [List.cons_append, List.takeWhile_cons, ha c (List.mem_cons_self _ _)]
    simp only [if_true]
    rw [ih x b (fun c2 h2 => ha c2 (List.mem_cons_of_mem c h2)) hx]

theorem imgScanF_nil : ∀ fuel : Nat, imgScanF fuel [] = [] := by
  intro fuel
  cases fuel <;> rfl

theorem imgTryMatch_eq (alt tgt : List Char) (halt : ']' ∉ alt) (h1 : tgt ≠ [])
    (h2 : ')' ∉ tgt) :
    imgTryMatch (alt ++ ']' :: '(' :: (tgt ++ [')'])) = some (alt, tgt, []) := by
  have ha : (alt ++ ']' :: '(' :: (tgt ++ [')'])).takeWhile (· != ']') = alt :=
    takeWhile_append_eq _ alt ']' _
      (fun c hc => bne_iff_ne.mpr (fun h => halt (h ▸ hc))) (by simp)
  have hb : (tgt ++ [')']).takeWhile (· != ')') = tgt :=
    takeWhile_append_eq _ tgt ')' []
      (fun c hc => bne_iff_ne.mpr (fun h => h2 (h ▸ hc))) (by simp)
  have hemp : tgt.isEmpty = false := by
    cases tgt with
    | nil => exact absurd rfl h1
    | cons a b => rfl
  rw [imgTryMatch]
  simp only []
  rw [ha, List.drop_left]
  simp only []
  rw [hb, hemp]
  simp only [Bool.false_eq_true, if_false]
  rw [List.drop_left]
  rfl

theorem imgScanF_single (alt tgt : List Char) (halt : ']' ∉ alt) (h1 : tgt ≠ [])
    (h2 : ')' ∉ tgt) (fuel : Nat) :
    imgScanF (fuel + 1) ('!' :: '[' :: (alt ++ ']' :: '(' :: (tgt ++ [')']))) =
      toL ("<ac:image><ri:url ri:value=\"") ++ tgt ++ toL ("\"/></ac:image>") := by
  rw [imgScanF.eq_def]
  split
  · rename_i h0
    omega
  · split
    · rename_i heq
      exact List.noConfusion heq
    · rename_i fuel' heqf s' rest hrest
      obtain rfl : rest = alt ++ ']' :: '(' :: (tgt ++ [')']) := by
        injection hrest with e1 e2
        injection e2 with e3 e4
        exact e4.symm
      rw [imgTryMatch_eq alt tgt halt h1 h2]
      simp only []
      rw [imgScanF_nil, List.append_nil]
    · rename_i fuel' hfe s' hd tl hno hcons
      injection hcons with e1 e2
      exact (hno (alt ++ ']' :: '(' :: (tgt ++ [')'])) e1.symm e2.symm).elim

/-- C9 (amended): the inline image substitution emits a tag carrying only
the target; the output is the same for every alt text (the alt is
discarded, not copied), though the alt string may still occur in the
output by coinciding with the tag text or the target.  Stated for a line
that is exactly one image form whose target contains none of the other
inline trigger characters. -/
theorem image_alt_discarded (alt tgt : List Char) (halt : ']' ∉ alt) (h1 : tgt ≠ [])
    (hsafe : ∀ c ∈ tgt, c ≠ ')' ∧ c ≠ '[' ∧ c ≠ '*' ∧ c ≠ btick) :
    process_inline_formats (toL ("![") ++ alt ++ toL ("](") ++ tgt ++ [')']) =
      toL ("<ac:image><ri:url ri:value=\"") ++ tgt ++ toL ("\"/></ac:image>") := by
  have h2 : ')' ∉ tgt := fun h => (hsafe _ h).1 rfl
  have hshape : toL ("![") ++ alt ++ toL ("](") ++ tgt ++ [')'] =
      '!' :: '[' :: (alt ++ ']' :: '(' :: (tgt ++ [')'])) := by
    rw [show toL ("![") = ['!', '['] from rfl, show toL ("](") = [']', '('] from rfl]
    simp [List.cons_append, List.append_assoc]
  have hA : '[' ∉ toL ("<ac:image><ri:url ri:value=\"") ++ tgt ++ toL ("\"/></ac:image>") := by
    intro hmem
    rcases List.mem_append.mp hmem with hm | hm
    · rcases List.mem_append.mp hm with hm2 | hm2
      · exact absurd hm2 (by decide)
      · exact (hsafe _ hm2).2.1 rfl
    · exact absurd hm (by decide)
  have hB : '*' ∉ toL ("<ac:image><ri:url ri:value=\"") ++ tgt ++ toL ("\"/></ac:image>") := by
    intro hmem
    rcases List.mem_append.mp hmem with hm | hm
    · rcases List.mem_append.mp hm with hm2 | hm2
      · exact absurd hm2 (by decide)
      · exact (hsafe _ hm2).2.2.1 rfl
    · exact absurd hm (by decide)
  have hC : btick ∉ toL ("<ac:image><ri:url ri:value=\"") ++ tgt ++ toL ("\"/></ac:image>") := by
    intro hmem
    rcases List.mem_append.mp hmem with hm | hm
    · rcases List.mem_append.mp hm with hm2 | hm2
      · exact absurd hm2 (by decide)
      · exact (hsafe _ hm2).2.2.2 rfl
    · exact absurd hm (by decide)
  rw [hshape, process_inline_formats]
  rw [imgScanF_single alt tgt halt h1 h2]
  rw [linkScanF_id _ _ hA]
  rw [boldScanF_id '*' _ _ _ _ hB]
  rw [italicInlineF_id _ none _ hB]
  rw [codeScanF_id _ _ hC]

/-- Witness for C9 (amended) at a concrete alt and target. -/
theorem image_alt_discarded_witness :
    process_inline_formats (toL ("![") ++ toL ("photo") ++ toL ("](") ++ toL ("u.png") ++ [')']) =
      toL ("<ac:image><ri:url ri:value=\"") ++ toL ("u.png") ++ toL ("\"/></ac:image>") :=
  image_alt_discarded (toL ("photo")) (toL ("u.png")) (by decide) (by decide) (by decide)

/-! ## C7: heading-plus-list compilation scenario -/

/-- C7: compiling `"# Title\n\n- a\n- b\n"` yields exactly an `h1` element
containing `Title`, then one `ul` wrapper with the two `li` items `a` and
`b` in order, closed at end of input, with no `p` element anywhere. -/
theorem compile_heading_list_scenario :
    markdown_to_confluence (toL ("# Title\n\n- a\n- b\n")) =
      toL ("<h1>Title</h1>\n<ul>\n<li>a</li>\n<li>b</li>\n</ul>") := by decide

end Conf
